import Mathlib

/-!
# Verification of the TinhSoftware mask-refinement and compositing pipeline

Shallow embedding of the domain layer (`src/domain`): entities `Mask`,
`ImageInput`, `ImageOutput`, and the services `AlphaCompose`, `AutoCrop`,
`BackgroundReplacer`, `PostProcessMask`, `MaskExporter`.

Pixel buffers are embedded as `List (List _)` grids; 8-bit unsigned samples
as `ℕ` (with a well-formedness bound `≤ 255`), float samples as `ℚ`.
The numpy cast `.astype(np.uint8)` on non-negative values truncates towards
zero, embedded as `⌊q⌋.toNat`.
-/

/-- An 8-bit RGB pixel (`ImageInput` sample). -/
structure RGB where
  r : ℕ
  g : ℕ
  b : ℕ
deriving DecidableEq, Repr

/-- An 8-bit RGBA pixel (`ImageOutput` sample). -/
structure RGBA where
  r : ℕ
  g : ℕ
  b : ℕ
  a : ℕ
deriving DecidableEq, Repr

/-- `mask.py`: probability mask entity. `data` is the (H, W) float field. -/
structure Mask where
  data : List (List ℚ)
  width : ℕ
  height : ℕ
  is_binary : Bool := false
deriving DecidableEq, Repr

/-- `image_input.py`: RGB input image entity. -/
structure ImageInput where
  data : List (List RGB)
  width : ℕ
  height : ℕ
  file_path : String
deriving DecidableEq, Repr

/-- `image_output.py`: RGBA output image entity. -/
structure ImageOutput where
  data : List (List RGBA)
  width : ℕ
  height : ℕ
  original_path : String
deriving DecidableEq, Repr

/-- A grid is rectangular with the given height and width. -/
def rectGrid {α : Type} (g : List (List α)) (h w : ℕ) : Prop :=
  g.length = h ∧ ∀ row ∈ g, row.length = w

instance {α : Type} (g : List (List α)) (h w : ℕ) : Decidable (rectGrid g h w) := by
  unfold rectGrid; infer_instance

/-- `Mask.__post_init__`: 2D data of the declared shape, all values in [0, 1]. -/
def Mask.wf (m : Mask) : Prop :=
  rectGrid m.data m.height m.width ∧
    ∀ row ∈ m.data, ∀ v ∈ row, 0 ≤ v ∧ v ≤ 1

instance (m : Mask) : Decidable m.wf := by
  unfold Mask.wf; infer_instance

/-- `ImageInput.__post_init__` plus the uint8 dtype: declared shape, samples ≤ 255. -/
def ImageInput.wf (img : ImageInput) : Prop :=
  rectGrid img.data img.height img.width ∧
    ∀ row ∈ img.data, ∀ p ∈ row, p.r ≤ 255 ∧ p.g ≤ 255 ∧ p.b ≤ 255

instance (img : ImageInput) : Decidable img.wf := by
  unfold ImageInput.wf; infer_instance

/-- `ImageOutput.__post_init__` plus the uint8 dtype: declared shape, samples ≤ 255. -/
def ImageOutput.wf (img : ImageOutput) : Prop :=
  rectGrid img.data img.height img.width ∧
    ∀ row ∈ img.data, ∀ p ∈ row, p.r ≤ 255 ∧ p.g ≤ 255 ∧ p.b ≤ 255 ∧ p.a ≤ 255

instance (img : ImageOutput) : Decidable img.wf := by
  unfold ImageOutput.wf; infer_instance

/-- Errors raised by the domain services (the `DimensionMismatch` family of
`ValueError`s raised on size disagreement). -/
inductive DomainErr where
  | dimensionMismatch
deriving DecidableEq, Repr

/-- `x.astype(np.uint8)` on a non-negative float in `[0, 255]`: truncation
towards zero. -/
def astypeUint8 (q : ℚ) : ℕ := (⌊q⌋).toNat

/-- `np.clip(q, lo, hi)`. -/
def npClip (lo hi q : ℚ) : ℚ := max lo (min q hi)

/-- `arr.max()` over a 2D grid (0 on an empty grid; only used on grids of
non-negative values). -/
def gridMax (g : List (List ℚ)) : ℚ := (g.flatten).foldr max 0

/-- Generate an `H × W` grid from a per-pixel function (the embedding of a
numpy operation that produces an output buffer of a given shape). -/
def genGrid {α : Type} (H W : ℕ) (f : ℕ → ℕ → α) : List (List α) :=
  (List.range H).map (fun y => (List.range W).map (fun x => f y x))

namespace AlphaCompose

/-- `alpha_compose.py`, `AlphaCompose.compose`: validate dimensions, then
concatenate the RGB channels with `(mask.data * 255).astype(np.uint8)` as
alpha. -/
def compose (image : ImageInput) (mask : Mask) : Except DomainErr ImageOutput :=
  if image.height ≠ mask.height ∨ image.width ≠ mask.width then
    .error .dimensionMismatch
  else
    .ok { data := List.zipWith
            (fun irow mrow => List.zipWith
              (fun p v => RGBA.mk p.r p.g p.b (astypeUint8 (v * 255))) irow mrow)
            image.data mask.data
          width := image.width
          height := image.height
          original_path := image.file_path }

end AlphaCompose

namespace AutoCrop

/-- One row of `np.any(alpha >= threshold, axis=1)`: does any pixel of the row
reach the alpha threshold? -/
def rowOcc (t : ℕ) (row : List RGBA) : Bool := row.any (fun p => t ≤ p.a)

/-- One entry of `np.any(alpha >= threshold, axis=0)`: does any pixel of
column `j` reach the alpha threshold? -/
def colOcc (t : ℕ) (g : List (List RGBA)) (j : ℕ) : Bool :=
  g.any (fun row => ((row.get? j).map (fun p => decide (t ≤ p.a))).getD false)

/-- `np.where(bs)[0]`: the indices at which `bs` is true, in increasing order. -/
def trueIdxs (bs : List Bool) : List ℕ :=
  (List.range bs.length).filter (fun i => bs.getD i false)

/-- `auto_crop.py`, `AutoCrop.crop_to_content`: bounding box of pixels with
`alpha >= threshold`; a fully transparent image is returned unchanged. -/
def crop_to_content (output : ImageOutput) (threshold : ℕ := 10) : ImageOutput :=
  let g := output.data
  let w := (g.headD []).length
  let rows := g.map (rowOcc threshold)
  let cols := (List.range w).map (colOcc threshold g)
  if !(rows.any id) || !(cols.any id) then
    output
  else
    let row_min := (trueIdxs rows).headD 0
    let row_max := (trueIdxs rows).getLastD 0
    let col_min := (trueIdxs cols).headD 0
    let col_max := (trueIdxs cols).getLastD 0
    let cropped := ((g.drop row_min).take (row_max - row_min + 1)).map
      (fun row => (row.drop col_min).take (col_max - col_min + 1))
    { data := cropped
      width := (cropped.headD []).length
      height := cropped.length
      original_path := output.original_path }

/-- `auto_crop.py`, `AutoCrop.get_crop_bounds`: the same bounding box as
`crop_to_content`, returned as `(x, y, width, height)`. -/
def get_crop_bounds (output : ImageOutput) (threshold : ℕ := 10) :
    ℕ × ℕ × ℕ × ℕ :=
  let g := output.data
  let w := (g.headD []).length
  let rows := g.map (rowOcc threshold)
  let cols := (List.range w).map (colOcc threshold g)
  if !(rows.any id) || !(cols.any id) then
    (0, 0, output.width, output.height)
  else
    let row_min := (trueIdxs rows).headD 0
    let row_max := (trueIdxs rows).getLastD 0
    let col_min := (trueIdxs cols).headD 0
    let col_max := (trueIdxs cols).getLastD 0
    (col_min, row_min, col_max - col_min + 1, row_max - row_min + 1)

end AutoCrop

namespace BackgroundReplacer

/-- `mask.data.shape[:2]`: `Mask.__post_init__` validates that the buffer's
shape equals the `(height, width)` metadata, so the shape of a constructed
mask's data is its metadata (a list-of-rows buffer cannot itself carry the
width of a zero-row array, so the embedding reads the validated metadata). -/
def maskShape (m : Mask) : ℕ × ℕ := (m.height, m.width)

/-- The "Normalize mask to 0-1" step shared by all three replacement modes:
`if alpha.max() > 1.0: alpha = alpha / 255.0`. -/
def normalizeAlpha (d : List (List ℚ)) : List (List ℚ) :=
  if 1 < gridMax d then d.map (List.map (fun v => v / 255)) else d

/-- One pixel of `np.clip(rgb * alpha + background * (1 - alpha), 0, 255)
.astype(np.uint8)`, stacked with the fully opaque alpha plane. -/
def blendPixel (p bg : RGB) (alpha : ℚ) : RGBA :=
  RGBA.mk
    (astypeUint8 (npClip 0 255 ((p.r : ℚ) * alpha + (bg.r : ℚ) * (1 - alpha))))
    (astypeUint8 (npClip 0 255 ((p.g : ℚ) * alpha + (bg.g : ℚ) * (1 - alpha))))
    (astypeUint8 (npClip 0 255 ((p.b : ℚ) * alpha + (bg.b : ℚ) * (1 - alpha))))
    255

/-- `background_replacer.py`, `BackgroundReplacer.replace_with_color`. -/
def replace_with_color (original : ImageInput) (mask : Mask)
    (color : ℕ × ℕ × ℕ) (original_path : String := "output.png") :
    Except DomainErr ImageOutput :=
  if maskShape mask ≠ (original.height, original.width) then
    .error .dimensionMismatch
  else
    let alpha := normalizeAlpha mask.data
    let bg : RGB := RGB.mk color.1 color.2.1 color.2.2
    .ok { data := List.zipWith
            (fun irow arow => List.zipWith (fun p a => blendPixel p bg a) irow arow)
            original.data alpha
          width := original.width
          height := original.height
          original_path := original_path }

/-- Modelled from the spec: `cv2.resize(..., interpolation=cv2.INTER_LANCZOS4)`
is an external high-quality resampler; only its output dimensions are relied on
by any claim, so it is modelled as index resampling to the target shape. -/
def resizeTo (g : List (List RGB)) (newW newH : ℕ) : List (List RGB) :=
  let h := g.length
  let w := (g.headD []).length
  (List.range newH).map (fun y => (List.range newW).map (fun x =>
    ((g.getD (y * h / max newH 1) []).getD (x * w / max newW 1) (RGB.mk 0 0 0))))

/-- `background_replacer.py`, `BackgroundReplacer.replace_with_image`. -/
def replace_with_image (original : ImageInput) (mask : Mask)
    (background_image : ImageInput) (original_path : String := "output.png") :
    Except DomainErr ImageOutput :=
  if maskShape mask ≠ (original.height, original.width) then
    .error .dimensionMismatch
  else
    let alpha := normalizeAlpha mask.data
    let bg_data :=
      if (background_image.height, background_image.width) ≠
          (original.height, original.width) then
        resizeTo background_image.data original.width original.height
      else background_image.data
    .ok { data := List.zipWith3
            (fun irow brow arow => List.zipWith3 blendPixel irow brow arow)
            original.data bg_data alpha
          width := original.width
          height := original.height
          original_path := original_path }

/-- Modelled from the spec: the 1D Gaussian kernel of `cv2.GaussianBlur` for an
odd kernel size with auto-derived sigma; embedded as the binomial kernel, a
standard support-limited Gaussian approximation with non-negative weights
summing to 1, blur increasing with kernel size. -/
def gaussKernel1D (k : ℕ) : List ℚ :=
  (List.range k).map (fun i => (Nat.choose (k - 1) i : ℚ) / 2 ^ (k - 1))

/-- Replicate-border index clamp used by the blur neighbourhood reads. -/
def borderClamp (n : ℕ) (i : ℤ) : ℕ := (min (max i 0) ((n : ℤ) - 1)).toNat

/-- One separable-Gaussian weighted sample of a single channel `sel` of an RGB
grid at `(y, x)`. -/
def blurSampleRGB (ker : List ℚ) (g : List (List RGB)) (H W y x : ℕ)
    (sel : RGB → ℕ) : ℚ :=
  let r := ker.length / 2
  (ker.enum.map (fun p =>
    p.2 * ((ker.enum.map (fun q =>
      q.2 * ((sel ((g.getD (borderClamp H ((y : ℤ) + p.1 - r)) []).getD
        (borderClamp W ((x : ℤ) + q.1 - r)) (RGB.mk 0 0 0))) : ℚ))).sum))).sum

/-- Modelled from the spec: `cv2.GaussianBlur` on a uint8 RGB buffer, applied
per channel with rounding back to uint8. -/
def gaussBlurRGB (ker : List ℚ) (g : List (List RGB)) : List (List RGB) :=
  genGrid g.length (g.headD []).length (fun y x =>
    RGB.mk
      ((round (blurSampleRGB ker g g.length (g.headD []).length y x RGB.r)).toNat)
      ((round (blurSampleRGB ker g g.length (g.headD []).length y x RGB.g)).toNat)
      ((round (blurSampleRGB ker g g.length (g.headD []).length y x RGB.b)).toNat))

/-- `if blur_strength % 2 == 0: blur_strength += 1` — force an odd kernel. -/
def forceOdd (blur_strength : ℕ) : ℕ :=
  if blur_strength % 2 = 0 then blur_strength + 1 else blur_strength

/-- `background_replacer.py`, `BackgroundReplacer.replace_with_blur`: force an
odd kernel size, blur the image itself as background, blend, fully opaque. -/
def replace_with_blur (original : ImageInput) (mask : Mask)
    (blur_strength : ℕ := 51) (original_path : String := "output.png") :
    Except DomainErr ImageOutput :=
  if maskShape mask ≠ (original.height, original.width) then
    .error .dimensionMismatch
  else
    let alpha := normalizeAlpha mask.data
    let blurred := gaussBlurRGB (gaussKernel1D (forceOdd blur_strength)) original.data
    .ok { data := List.zipWith3
            (fun irow brow arow => List.zipWith3 blendPixel irow brow arow)
            original.data blurred alpha
          width := original.width
          height := original.height
          original_path := original_path }

end BackgroundReplacer

namespace PostProcessMask

/-- `settings.py`: the post-processing slice of `Settings` (the recognized
`RefineParams` options). -/
structure Settings where
  threshold : ℚ := 1 / 2
  smooth_pixels : ℕ := 2
  feather_pixels : ℕ := 1
deriving DecidableEq, Repr

/-- `settings.py`, `Settings.__post_init__`: threshold in [0, 1] (the radii are
naturals, so their non-negativity checks hold structurally). -/
def Settings.wf (s : Settings) : Prop := 0 ≤ s.threshold ∧ s.threshold ≤ 1

instance (s : Settings) : Decidable s.wf := by
  unfold Settings.wf; infer_instance

/-- `(processed_data * 255).astype(np.uint8)`. -/
def toUint8Grid (d : List (List ℚ)) : List (List ℕ) :=
  d.map (List.map (fun v => astypeUint8 (v * 255)))

/-- `mask_uint8.astype(np.float32) / 255.0`. -/
def fromUint8Grid (u : List (List ℕ)) : List (List ℚ) :=
  u.map (List.map (fun (n : ℕ) => (n : ℚ) / 255))

/-- Modelled from the spec: `cv2.getStructuringElement(cv2.MORPH_ELLIPSE,
(k, k))`, the disk-shaped structuring element of diameter `k`. -/
def ellipseKernel (k : ℕ) : List (List Bool) :=
  let r := k / 2
  (List.range k).map (fun i => (List.range k).map (fun j =>
    decide (((i : ℤ) - r) ^ 2 + ((j : ℤ) - r) ^ 2 ≤ (r : ℤ) ^ 2)))

/-- The in-bounds neighbourhood values selected by the structuring element
around `(y, x)` (out-of-bounds positions do not constrain min/max, matching the
morphological border convention). -/
def morphVals (ker : List (List Bool)) (g : List (List ℕ)) (H W y x : ℕ) :
    List ℕ :=
  let k := ker.length
  let r := k / 2
  ((List.range k).product (List.range k)).filterMap (fun d =>
    if ((ker.getD d.1 []).getD d.2 false) = true ∧
        0 ≤ (y : ℤ) + d.1 - r ∧ (y : ℤ) + d.1 - r < (H : ℤ) ∧
        0 ≤ (x : ℤ) + d.2 - r ∧ (x : ℤ) + d.2 - r < (W : ℤ) then
      some ((g.getD ((y : ℤ) + d.1 - r).toNat []).getD ((x : ℤ) + d.2 - r).toNat 0)
    else none)

/-- Modelled from the spec: `cv2.erode` on a uint8 buffer — the minimum over
the structuring-element neighbourhood. -/
def erode (ker : List (List Bool)) (g : List (List ℕ)) : List (List ℕ) :=
  genGrid g.length (g.headD []).length (fun y x =>
    (morphVals ker g g.length (g.headD []).length y x).foldr min 255)

/-- Modelled from the spec: `cv2.dilate` on a uint8 buffer — the maximum over
the structuring-element neighbourhood. -/
def dilate (ker : List (List Bool)) (g : List (List ℕ)) : List (List ℕ) :=
  genGrid g.length (g.headD []).length (fun y x =>
    (morphVals ker g g.length (g.headD []).length y x).foldr max 0)

/-- `cv2.morphologyEx(..., cv2.MORPH_OPEN, ...)`: erosion then dilation. -/
def morphOpen (ker : List (List Bool)) (g : List (List ℕ)) : List (List ℕ) :=
  dilate ker (erode ker g)

/-- `cv2.morphologyEx(..., cv2.MORPH_CLOSE, ...)`: dilation then erosion. -/
def morphClose (ker : List (List Bool)) (g : List (List ℕ)) : List (List ℕ) :=
  erode ker (dilate ker g)

/-- One separable-Gaussian weighted sample of a single-channel uint8 grid. -/
def blurSample (ker : List ℚ) (g : List (List ℕ)) (H W y x : ℕ) : ℚ :=
  let r := ker.length / 2
  (ker.enum.map (fun p =>
    p.2 * ((ker.enum.map (fun q =>
      q.2 * (((g.getD (BackgroundReplacer.borderClamp H ((y : ℤ) + p.1 - r)) []).getD
        (BackgroundReplacer.borderClamp W ((x : ℤ) + q.1 - r)) 0 : ℕ) : ℚ))).sum))).sum

/-- Modelled from the spec: `cv2.GaussianBlur` on a single-channel uint8
buffer, rounded back to uint8. -/
def gaussBlurChan (ker : List ℚ) (g : List (List ℕ)) : List (List ℕ) :=
  genGrid g.length (g.headD []).length (fun y x =>
    (round (blurSample ker g g.length (g.headD []).length y x)).toNat)

/-- Step 1 of `PostProcessMask.apply`: `if not mask.is_binary and
settings.threshold > 0: processed_data = (processed_data >=
settings.threshold).astype(np.float32)`. -/
def thresholdStep (threshold : ℚ) (is_binary : Bool) (d : List (List ℚ)) :
    List (List ℚ) :=
  if is_binary = false ∧ 0 < threshold then
    d.map (List.map (fun v => if threshold ≤ v then (1 : ℚ) else 0))
  else d

/-- Step 2 of `PostProcessMask.apply`: morphological open then close over the
uint8 quantization with the elliptical kernel of size `smooth_pixels * 2 + 1`,
rescaled back to [0, 1]. -/
def smoothStep (smooth_pixels : ℕ) (d : List (List ℚ)) : List (List ℚ) :=
  if 0 < smooth_pixels then
    let kernel := ellipseKernel (smooth_pixels * 2 + 1)
    fromUint8Grid (morphClose kernel (morphOpen kernel (toUint8Grid d)))
  else d

/-- Step 3 of `PostProcessMask.apply`: Gaussian blur of the uint8 quantization
with kernel size `feather_pixels * 2 + 1`, rescaled back to [0, 1]. -/
def featherStep (feather_pixels : ℕ) (d : List (List ℚ)) : List (List ℚ) :=
  if 0 < feather_pixels then
    fromUint8Grid (gaussBlurChan
      (BackgroundReplacer.gaussKernel1D (feather_pixels * 2 + 1))
      (toUint8Grid d))
  else d

/-- `post_process_mask.py`, `PostProcessMask.apply`: threshold, morphological
open/close smoothing over the uint8 quantization, Gaussian feathering over the
uint8 quantization; the result always carries `is_binary = false`. -/
def apply (mask : Mask) (settings : Settings) : Mask :=
  { data := featherStep settings.feather_pixels
      (smoothStep settings.smooth_pixels
        (thresholdStep settings.threshold mask.is_binary mask.data))
    width := mask.width
    height := mask.height
    is_binary := false }

end PostProcessMask

namespace MaskExporter

/-- The error raised by the exporters' result construction:
`ImageOutput(data=rgba, width=..., height=..., format="RGBA")` passes the
unknown keyword `format` to a dataclass whose fields are
`data, width, height, original_path` (with `original_path` required), so the
call raises `TypeError` unconditionally. -/
inductive PyErr where
  | typeError
deriving DecidableEq, Repr

/-- The grayscale RGBA buffer computed by `export_as_grayscale` before its
`ImageOutput(...)` call: scale-detect, normalize to 0-255, clip, duplicate
into R=G=B, opaque alpha. -/
def grayscaleData (mask : Mask) : List (List RGBA) :=
  let d := if gridMax mask.data ≤ 1 then
      mask.data.map (List.map (fun v => v * 255))
    else mask.data
  let u := d.map (List.map (fun v => astypeUint8 (npClip 0 255 v)))
  u.map (List.map (fun n => RGBA.mk n n n 255))

/-- `mask_exporter.py`, `MaskExporter.export_as_grayscale`: computes the RGBA
buffer, then calls `ImageOutput(data=rgba, width=mask.width,
height=mask.height, format="RGBA")`, which raises `TypeError` unconditionally
(`ImageOutput` has no `format` field and `original_path` is required), so the
function never returns an output. -/
def export_as_grayscale (mask : Mask) : Except PyErr ImageOutput :=
  let _rgba := grayscaleData mask
  .error .typeError

/-- The binary RGBA buffer computed by `export_as_binary` before its
`ImageOutput(...)` call: scale-detect, normalize to 0-1, binarize at the
threshold into R=G=B, opaque alpha. -/
def binaryData (mask : Mask) (threshold : ℚ := 1 / 2) : List (List RGBA) :=
  let d := if 1 < gridMax mask.data then
      mask.data.map (List.map (fun v => v / 255))
    else mask.data
  let u := d.map (List.map (fun v => if threshold ≤ v then (255 : ℕ) else 0))
  u.map (List.map (fun n => RGBA.mk n n n 255))

/-- `mask_exporter.py`, `MaskExporter.export_as_binary`: computes the RGBA
buffer, then calls the same `ImageOutput(..., format="RGBA")` constructor,
which raises `TypeError` unconditionally, so the function never returns an
output. -/
def export_as_binary (mask : Mask) (threshold : ℚ := 1 / 2) :
    Except PyErr ImageOutput :=
  let _rgba := binaryData mask threshold
  .error .typeError

/-- The alpha-only RGBA buffer computed by `export_as_alpha_only` before its
`ImageOutput(...)` call: scale-detect, normalize to 0-255, clip, white RGB
with the mask as alpha. -/
def alphaOnlyData (mask : Mask) : List (List RGBA) :=
  let d := if gridMax mask.data ≤ 1 then
      mask.data.map (List.map (fun v => v * 255))
    else mask.data
  let u := d.map (List.map (fun v => astypeUint8 (npClip 0 255 v)))
  u.map (List.map (fun n => RGBA.mk 255 255 255 n))

/-- `mask_exporter.py`, `MaskExporter.export_as_alpha_only`: computes the RGBA
buffer, then calls the same `ImageOutput(..., format="RGBA")` constructor,
which raises `TypeError` unconditionally, so the function never returns an
output. -/
def export_as_alpha_only (mask : Mask) : Except PyErr ImageOutput :=
  let _rgba := alphaOnlyData mask
  .error .typeError

end MaskExporter

/-! ## General list helpers -/

theorem zipWith_getD {α β γ : Type} (f : α → β → γ) :
    ∀ (l1 : List α) (l2 : List β) (i : ℕ), i < l1.length → i < l2.length →
      ∀ (d1 : α) (d2 : β) (dg : γ),
      (List.zipWith f l1 l2).getD i dg = f (l1.getD i d1) (l2.getD i d2)
  | _ :: _, _ :: _, 0, _, _, _, _, _ => rfl
  | a :: t1, b :: t2, i + 1, h1, h2, d1, d2, dg => by
      simpa using zipWith_getD f t1 t2 i (by simpa using h1) (by simpa using h2) d1 d2 dg
  | [], _, i, h1, _, _, _, _ => absurd h1 (by simp)
  | _ :: _, [], i, _, h2, _, _, _ => absurd h2 (by simp)

theorem getD_mem_of_lt {α : Type} (l : List α) (i : ℕ) (d : α) (h : i < l.length) :
    l.getD i d ∈ l := by
  rw [List.getD_eq_getElem?_getD, List.getElem?_eq_getElem h]
  exact List.getElem_mem h

theorem map_range_getD {α : Type} (f : ℕ → α) (n i : ℕ) (d : α) (h : i < n) :
    ((List.range n).map f).getD i d = f i := by
  rw [List.getD_eq_getElem?_getD, List.getElem?_map, List.getElem?_range h]
  rfl

/-! ## C1: alpha compositing -/

/-- **C1** (amended): for every well-formed `ColorImage` and `Mask` of equal
height and width, `compose` succeeds and returns a `CompositeImage` whose R, G,
B channels are copied unchanged from the input image and whose alpha channel at
every pixel `(y, x)` equals `clamp(mask.value[y][x], 0, 1) * 255` truncated to
uint8 (floor), not rounded to nearest. -/
theorem C1_compose_rgb_and_alpha (image : ImageInput) (mask : Mask)
    (hi : image.wf) (hm : mask.wf)
    (hh : image.height = mask.height) (hw : image.width = mask.width) :
    ∃ out, AlphaCompose.compose image mask = Except.ok out ∧
      out.width = image.width ∧ out.height = image.height ∧
      ∀ y, y < image.height → ∀ x, x < image.width →
        (out.data.getD y []).getD x (RGBA.mk 0 0 0 0) =
          RGBA.mk
            (((image.data.getD y []).getD x (RGB.mk 0 0 0)).r)
            (((image.data.getD y []).getD x (RGB.mk 0 0 0)).g)
            (((image.data.getD y []).getD x (RGB.mk 0 0 0)).b)
            (astypeUint8 (npClip 0 1 ((mask.data.getD y []).getD x 0) * 255)) := by
  have hcond : ¬(image.height ≠ mask.height ∨ image.width ≠ mask.width) := by
    simp [hh, hw]
  unfold AlphaCompose.compose
  rw [if_neg hcond]
  refine ⟨_, rfl, rfl, rfl, ?_⟩
  intro y hy x hx
  have hyi : y < image.data.length := by rw [hi.1.1]; exact hy
  have hym : y < mask.data.length := by rw [hm.1.1, ← hh]; exact hy
  rw [zipWith_getD _ image.data mask.data y hyi hym [] [] []]
  have hrow_i : (image.data.getD y []) ∈ image.data := getD_mem_of_lt _ _ _ hyi
  have hrow_m : (mask.data.getD y []) ∈ mask.data := getD_mem_of_lt _ _ _ hym
  have hxi : x < (image.data.getD y []).length := by
    rw [hi.1.2 _ hrow_i]; exact hx
  have hxm : x < (mask.data.getD y []).length := by
    rw [hm.1.2 _ hrow_m]; rw [← hw]; exact hx
  rw [zipWith_getD _ _ _ x hxi hxm (RGB.mk 0 0 0) 0 (RGBA.mk 0 0 0 0)]
  have hv := hm.2 (mask.data.getD y []) hrow_m ((mask.data.getD y []).getD x 0)
    (getD_mem_of_lt _ x 0 hxm)
  have hclip : npClip 0 1 ((mask.data.getD y []).getD x 0) =
      (mask.data.getD y []).getD x 0 := by
    unfold npClip
    rw [min_eq_left hv.2, max_eq_right hv.1]
  rw [hclip]

/-- **C1** witness: the amended theorem applied to a concrete 1×1 image/mask. -/
theorem C1_compose_rgb_and_alpha_witness :
    ImageInput.wf ⟨[[RGB.mk 5 6 7]], 1, 1, "p"⟩ ∧
    Mask.wf ⟨[[1]], 1, 1, false⟩ ∧
    (∃ out, AlphaCompose.compose ⟨[[RGB.mk 5 6 7]], 1, 1, "p"⟩ ⟨[[1]], 1, 1, false⟩ =
        Except.ok out ∧
      out.width = 1 ∧ out.height = 1 ∧
      ∀ y, y < 1 → ∀ x, x < 1 →
        (out.data.getD y []).getD x (RGBA.mk 0 0 0 0) =
          RGBA.mk
            ((([[RGB.mk 5 6 7]].getD y []).getD x (RGB.mk 0 0 0)).r)
            ((([[RGB.mk 5 6 7]].getD y []).getD x (RGB.mk 0 0 0)).g)
            ((([[RGB.mk 5 6 7]].getD y []).getD x (RGB.mk 0 0 0)).b)
            (astypeUint8 (npClip 0 1 (([[(1 : ℚ)]].getD y []).getD x 0) * 255))) :=
  ⟨by norm_num [ImageInput.wf, rectGrid],
   by norm_num [Mask.wf, rectGrid],
   C1_compose_rgb_and_alpha _ _ (by norm_num [ImageInput.wf, rectGrid])
     (by norm_num [Mask.wf, rectGrid]) rfl rfl⟩

/-- **C1** counterexample: at mask value 0.43 the code stores alpha
`⌊0.43 * 255⌋ = 109`, while `round(clamp(0.43, 0, 1) * 255) = 110`, so the
claimed rounding semantics is false as stated. -/
theorem C1_compose_round_cex :
    AlphaCompose.compose ⟨[[RGB.mk 0 0 0]], 1, 1, "p"⟩ ⟨[[43/100]], 1, 1, false⟩ =
      Except.ok ⟨[[RGBA.mk 0 0 0 109]], 1, 1, "p"⟩ ∧
    round (npClip 0 1 ((43 : ℚ) / 100) * 255) = 110 := by
  constructor
  · norm_num [AlphaCompose.compose, astypeUint8]
    rfl
  · norm_num [npClip, round_eq]

/-! ## C2: background replacement by solid color -/

theorem foldr_max_le (l : List ℚ) (c : ℚ) (hc : 0 ≤ c) (h : ∀ x ∈ l, x ≤ c) :
    l.foldr max 0 ≤ c := by
  induction l with
  | nil => simpa using hc
  | cons a t ih =>
      simp only [List.foldr_cons, max_le_iff]
      exact ⟨h a (by simp), ih (fun x hx => h x (by simp [hx]))⟩

theorem gridMax_le_one_of_wf (m : Mask) (hm : m.wf) : gridMax m.data ≤ 1 := by
  unfold gridMax
  refine foldr_max_le _ _ (by norm_num) ?_
  intro x hx
  rw [List.mem_flatten] at hx
  obtain ⟨row, hrow, hxr⟩ := hx
  exact (hm.2 row hrow x hxr).2

theorem mem_zipWith {α β γ : Type} (f : α → β → γ) :
    ∀ (l1 : List α) (l2 : List β) (x : γ), x ∈ List.zipWith f l1 l2 →
      ∃ a b, a ∈ l1 ∧ b ∈ l2 ∧ x = f a b
  | a :: t1, b :: t2, x, hx => by
      rcases List.mem_cons.1 hx with h | h
      · exact ⟨a, b, by simp, by simp, h⟩
      · obtain ⟨a', b', ha, hb, hx'⟩ := mem_zipWith f t1 t2 x h
        exact ⟨a', b', by simp [ha], by simp [hb], hx'⟩

/-- **C2** (amended): for every well-formed `ColorImage`, matching well-formed
`Mask` and RGB color (components ≤ 255), `replace_with_color` succeeds and its
RGB at every pixel equals `clamp(image_rgb * alpha + color * (1 - alpha), 0,
255)` truncated to uint8 (floor, not round) with `alpha = mask.value`; its
alpha channel is uniformly 255; and for a mask that is 0.0 everywhere the
output RGB equals the chosen solid color at every pixel. -/
theorem C2_replace_with_color_spec (original : ImageInput) (mask : Mask)
    (color : ℕ × ℕ × ℕ) (path : String)
    (ho : original.wf) (hm : mask.wf)
    (hh : mask.height = original.height) (hw : mask.width = original.width)
    (hc : color.1 ≤ 255 ∧ color.2.1 ≤ 255 ∧ color.2.2 ≤ 255) :
    ∃ out, BackgroundReplacer.replace_with_color original mask color path =
        Except.ok out ∧
      out.width = original.width ∧ out.height = original.height ∧
      (∀ y, y < original.height → ∀ x, x < original.width →
        (out.data.getD y []).getD x (RGBA.mk 0 0 0 0) =
          BackgroundReplacer.blendPixel
            ((original.data.getD y []).getD x (RGB.mk 0 0 0))
            (RGB.mk color.1 color.2.1 color.2.2)
            ((mask.data.getD y []).getD x 0)) ∧
      (∀ row ∈ out.data, ∀ px ∈ row, px.a = 255) ∧
      ((∀ row ∈ mask.data, ∀ v ∈ row, v = 0) →
        ∀ y, y < original.height → ∀ x, x < original.width →
          ((out.data.getD y []).getD x (RGBA.mk 0 0 0 0)).r = color.1 ∧
          ((out.data.getD y []).getD x (RGBA.mk 0 0 0 0)).g = color.2.1 ∧
          ((out.data.getD y []).getD x (RGBA.mk 0 0 0 0)).b = color.2.2) := by
  have hcond : ¬(BackgroundReplacer.maskShape mask ≠
      (original.height, original.width)) := by
    simp [BackgroundReplacer.maskShape, hh, hw]
  have hnorm : BackgroundReplacer.normalizeAlpha mask.data = mask.data := by
    unfold BackgroundReplacer.normalizeAlpha
    rw [if_neg (by push_neg; exact gridMax_le_one_of_wf mask hm)]
  unfold BackgroundReplacer.replace_with_color
  rw [if_neg hcond]
  simp only [hnorm]
  refine ⟨_, rfl, rfl, rfl, ?_, ?_, ?_⟩
  case _ =>
    intro y hy x hx
    have hyi : y < original.data.length := by rw [ho.1.1]; exact hy
    have hym : y < mask.data.length := by rw [hm.1.1, hh]; exact hy
    rw [zipWith_getD _ original.data mask.data y hyi hym [] [] []]
    have hrow_i : (original.data.getD y []) ∈ original.data := getD_mem_of_lt _ _ _ hyi
    have hrow_m : (mask.data.getD y []) ∈ mask.data := getD_mem_of_lt _ _ _ hym
    have hxi : x < (original.data.getD y []).length := by rw [ho.1.2 _ hrow_i]; exact hx
    have hxm : x < (mask.data.getD y []).length := by rw [hm.1.2 _ hrow_m, hw]; exact hx
    rw [zipWith_getD _ _ _ x hxi hxm (RGB.mk 0 0 0) 0 (RGBA.mk 0 0 0 0)]
  case _ =>
    intro row hrow px hpx
    obtain ⟨irow, arow, _, _, hr⟩ := mem_zipWith _ original.data mask.data row hrow
    subst hr
    obtain ⟨p, a, _, _, hp⟩ := mem_zipWith _ irow arow px hpx
    subst hp
    rfl
  case _ =>
    intro hzero y hy x hx
    have hyi : y < original.data.length := by rw [ho.1.1]; exact hy
    have hym : y < mask.data.length := by rw [hm.1.1, hh]; exact hy
    rw [zipWith_getD _ original.data mask.data y hyi hym [] [] []]
    have hrow_i : (original.data.getD y []) ∈ original.data := getD_mem_of_lt _ _ _ hyi
    have hrow_m : (mask.data.getD y []) ∈ mask.data := getD_mem_of_lt _ _ _ hym
    have hxi : x < (original.data.getD y []).length := by rw [ho.1.2 _ hrow_i]; exact hx
    have hxm : x < (mask.data.getD y []).length := by rw [hm.1.2 _ hrow_m, hw]; exact hx
    rw [zipWith_getD _ _ _ x hxi hxm (RGB.mk 0 0 0) 0 (RGBA.mk 0 0 0 0)]
    have ha0 : (mask.data.getD y []).getD x 0 = 0 :=
      hzero _ hrow_m _ (getD_mem_of_lt _ x 0 hxm)
    rw [ha0]
    unfold BackgroundReplacer.blendPixel npClip astypeUint8
    have hch : ∀ c : ℕ, c ≤ 255 → ∀ pr : ℕ,
        (⌊max 0 (min ((pr : ℚ) * 0 + (c : ℚ) * (1 - 0)) 255)⌋).toNat = c := by
      intro c hcle pr
      have h1 : ((pr : ℚ) * 0 + (c : ℚ) * (1 - 0)) = (c : ℚ) := by ring
      rw [h1]
      have h2 : min ((c : ℚ)) 255 = (c : ℚ) := by
        apply min_eq_left
        exact_mod_cast hcle
      rw [h2]
      have h3 : max 0 ((c : ℚ)) = (c : ℚ) := by
        apply max_eq_right
        positivity
      rw [h3]
      simp
    exact ⟨hch color.1 hc.1 _, hch color.2.1 hc.2.1 _, hch color.2.2 hc.2.2 _⟩

/-- **C2** witness: the amended theorem applied to a concrete 1×1 instance with
an all-zero mask. -/
theorem C2_replace_with_color_spec_witness :
    ImageInput.wf ⟨[[RGB.mk 9 8 7]], 1, 1, "p"⟩ ∧
    Mask.wf ⟨[[0]], 1, 1, false⟩ ∧
    (∃ out, BackgroundReplacer.replace_with_color
        ⟨[[RGB.mk 9 8 7]], 1, 1, "p"⟩ ⟨[[0]], 1, 1, false⟩ (1, 2, 3) "o" =
        Except.ok out ∧
      out.width = 1 ∧ out.height = 1 ∧
      (∀ y, y < 1 → ∀ x, x < 1 →
        (out.data.getD y []).getD x (RGBA.mk 0 0 0 0) =
          BackgroundReplacer.blendPixel
            (([[RGB.mk 9 8 7]].getD y []).getD x (RGB.mk 0 0 0))
            (RGB.mk 1 2 3)
            (([[(0 : ℚ)]].getD y []).getD x 0)) ∧
      (∀ row ∈ out.data, ∀ px ∈ row, px.a = 255) ∧
      ((∀ row ∈ [[(0 : ℚ)]], ∀ v ∈ row, v = 0) →
        ∀ y, y < 1 → ∀ x, x < 1 →
          ((out.data.getD y []).getD x (RGBA.mk 0 0 0 0)).r = 1 ∧
          ((out.data.getD y []).getD x (RGBA.mk 0 0 0 0)).g = 2 ∧
          ((out.data.getD y []).getD x (RGBA.mk 0 0 0 0)).b = 3)) :=
  ⟨by norm_num [ImageInput.wf, rectGrid],
   by norm_num [Mask.wf, rectGrid],
   C2_replace_with_color_spec _ _ (1, 2, 3) "o"
     (by norm_num [ImageInput.wf, rectGrid])
     (by norm_num [Mask.wf, rectGrid]) rfl rfl (by norm_num)⟩

/-- **C2** counterexample: at image value 255, color 0 and mask value 0.43 the
code stores `⌊255 * 0.43⌋ = 109`, while the claimed
`round(clamp(255 * 0.43 + 0 * 0.57, 0, 255)) = 110`, so the claimed rounding
semantics is false as stated. -/
theorem C2_replace_round_cex :
    BackgroundReplacer.replace_with_color
      ⟨[[RGB.mk 255 255 255]], 1, 1, "p"⟩ ⟨[[43/100]], 1, 1, false⟩ (0, 0, 0) "o" =
      Except.ok ⟨[[RGBA.mk 109 109 109 255]], 1, 1, "o"⟩ ∧
    round (npClip 0 255 ((255 : ℚ) * (43/100) + (0 : ℚ) * (1 - 43/100))) = 110 := by
  constructor
  · norm_num [BackgroundReplacer.replace_with_color, BackgroundReplacer.maskShape,
      BackgroundReplacer.normalizeAlpha, BackgroundReplacer.blendPixel,
      gridMax, astypeUint8, npClip]
    rfl
  · norm_num [npClip, round_eq]

/-! ## C3: refine with all-zero parameters is the identity -/

/-- **C3**: for every `Mask`, with `smooth_radius = 0`, `feather_radius = 0`
and `threshold = 0`, `refine` returns a mask with exactly the same data,
height and width as the input, and `is_binary = false`. -/
theorem C3_refine_identity (m : Mask) (s : PostProcessMask.Settings)
    (ht : s.threshold = 0) (hs : s.smooth_pixels = 0) (hf : s.feather_pixels = 0) :
    PostProcessMask.apply m s = Mask.mk m.data m.width m.height false := by
  unfold PostProcessMask.apply PostProcessMask.featherStep
    PostProcessMask.smoothStep PostProcessMask.thresholdStep
  simp [ht, hs, hf]

/-- **C3** witness: the theorem applied at a concrete mask and the all-zero
settings. -/
theorem C3_refine_identity_witness :
    (PostProcessMask.Settings.mk 0 0 0).threshold = 0 ∧
    (PostProcessMask.Settings.mk 0 0 0).smooth_pixels = 0 ∧
    (PostProcessMask.Settings.mk 0 0 0).feather_pixels = 0 ∧
    PostProcessMask.apply (Mask.mk [[1/2, 1/4]] 2 1 true) (PostProcessMask.Settings.mk 0 0 0) =
      Mask.mk [[1/2, 1/4]] 2 1 false :=
  ⟨rfl, rfl, rfl, C3_refine_identity (Mask.mk [[1/2, 1/4]] 2 1 true) _ rfl rfl rfl⟩

/-! ## C6: dimension-mismatch errors -/

/-- **C6**: `compose` signals `DimensionMismatch` if and only if the image and
mask heights or widths differ, and each of `replace_with_color`,
`replace_with_image` and `replace_with_blur` signals `DimensionMismatch` if and
only if the mask's dimensions differ from the image's; in all other cases each
operation returns a full result (`ok`), never a resized or partial one. -/
theorem C6_dimension_mismatch_iff (image : ImageInput) (mask : Mask)
    (background : ImageInput) (color : ℕ × ℕ × ℕ) (blur_strength : ℕ)
    (path : String) :
    (AlphaCompose.compose image mask = Except.error DomainErr.dimensionMismatch ↔
      (image.height ≠ mask.height ∨ image.width ≠ mask.width)) ∧
    (BackgroundReplacer.replace_with_color image mask color path =
        Except.error DomainErr.dimensionMismatch ↔
      (mask.height ≠ image.height ∨ mask.width ≠ image.width)) ∧
    (BackgroundReplacer.replace_with_image image mask background path =
        Except.error DomainErr.dimensionMismatch ↔
      (mask.height ≠ image.height ∨ mask.width ≠ image.width)) ∧
    (BackgroundReplacer.replace_with_blur image mask blur_strength path =
        Except.error DomainErr.dimensionMismatch ↔
      (mask.height ≠ image.height ∨ mask.width ≠ image.width)) := by
  have hiff : (BackgroundReplacer.maskShape mask ≠ (image.height, image.width)) ↔
      (mask.height ≠ image.height ∨ mask.width ≠ image.width) := by
    simp only [BackgroundReplacer.maskShape, ne_eq, Prod.mk.injEq, not_and_or]
  refine ⟨?_, ?_, ?_, ?_⟩
  · unfold AlphaCompose.compose
    by_cases hc : image.height ≠ mask.height ∨ image.width ≠ mask.width
    · simp [hc]
    · simp [if_neg hc, hc]
  · unfold BackgroundReplacer.replace_with_color
    by_cases hc : mask.height ≠ image.height ∨ mask.width ≠ image.width
    · rw [if_pos (hiff.2 hc)]
      simp [hc]
    · rw [if_neg (fun hne => hc (hiff.1 hne))]
      simp [hc]
  · unfold BackgroundReplacer.replace_with_image
    by_cases hc : mask.height ≠ image.height ∨ mask.width ≠ image.width
    · rw [if_pos (hiff.2 hc)]
      simp [hc]
    · rw [if_neg (fun hne => hc (hiff.1 hne))]
      simp [hc]
  · unfold BackgroundReplacer.replace_with_blur
    by_cases hc : mask.height ≠ image.height ∨ mask.width ≠ image.width
    · rw [if_pos (hiff.2 hc)]
      simp [hc]
    · rw [if_neg (fun hne => hc (hiff.1 hne))]
      simp [hc]

/-! ## C7: fully transparent image -/

/-- **C7**: for every `CompositeImage` in which no pixel's alpha reaches the
threshold, `bounds` returns `(0, 0, width, height)` and `crop` returns the
image unchanged. -/
theorem C7_transparent_crop (out : ImageOutput) (t : ℕ)
    (h : ∀ row ∈ out.data, ∀ px ∈ row, px.a < t) :
    AutoCrop.get_crop_bounds out t = (0, 0, out.width, out.height) ∧
    AutoCrop.crop_to_content out t = out := by
  have hrow : ∀ row ∈ out.data, AutoCrop.rowOcc t row = false := by
    intro row hrowm
    rw [AutoCrop.rowOcc, List.any_eq_false]
    intro px hpx
    simpa using Nat.not_le.2 (h row hrowm px hpx)
  have hrows : (out.data.map (AutoCrop.rowOcc t)).any id = false := by
    rw [List.any_eq_false]
    intro b hb
    rw [List.mem_map] at hb
    obtain ⟨row, hrowm, hbe⟩ := hb
    rw [← hbe, hrow row hrowm]
    simp
  constructor
  · unfold AutoCrop.get_crop_bounds
    simp [hrows]
  · unfold AutoCrop.crop_to_content
    simp [hrows]

/-- **C7** witness: a concrete 1×2 image whose alpha values 4 and 9 are both
below the threshold 10. -/
theorem C7_transparent_crop_witness :
    (∀ row ∈ (ImageOutput.mk [[RGBA.mk 1 2 3 4, RGBA.mk 5 6 7 9]] 2 1 "p").data,
      ∀ px ∈ row, px.a < 10) ∧
    AutoCrop.get_crop_bounds (ImageOutput.mk [[RGBA.mk 1 2 3 4, RGBA.mk 5 6 7 9]] 2 1 "p") 10 =
      (0, 0, 2, 1) ∧
    AutoCrop.crop_to_content (ImageOutput.mk [[RGBA.mk 1 2 3 4, RGBA.mk 5 6 7 9]] 2 1 "p") 10 =
      ImageOutput.mk [[RGBA.mk 1 2 3 4, RGBA.mk 5 6 7 9]] 2 1 "p" :=
  ⟨by decide, C7_transparent_crop _ 10 (by decide)⟩

/-! ## C8: blur kernel oddification and opacity -/

theorem mem_zipWith3 {α β γ δ : Type} (f : α → β → γ → δ) :
    ∀ (l1 : List α) (l2 : List β) (l3 : List γ) (x : δ),
      x ∈ List.zipWith3 f l1 l2 l3 → ∃ a b c, x = f a b c
  | a :: t1, b :: t2, c :: t3, x, hx => by
      simp only [List.zipWith3] at hx
      rcases List.mem_cons.1 hx with h | h
      · exact ⟨a, b, c, h⟩
      · exact mem_zipWith3 f t1 t2 t3 x h
  | [], _, _, x, hx => absurd hx (by simp [List.zipWith3])
  | _ :: _, [], _, x, hx => absurd hx (by simp [List.zipWith3])
  | _ :: _, _ :: _, [], x, hx => absurd hx (by simp [List.zipWith3])

/-- **C8**: for every image, mask and even `blur_strength` k,
`replace_with_blur` with k returns the same result as with k + 1 (the kernel
size is forced to the next odd integer), and for every `blur_strength` the
alpha channel of a successful output is uniformly 255. -/
theorem C8_blur_even_and_alpha255 (original : ImageInput) (mask : Mask)
    (path : String) :
    (∀ k, k % 2 = 0 →
      BackgroundReplacer.replace_with_blur original mask k path =
        BackgroundReplacer.replace_with_blur original mask (k + 1) path) ∧
    (∀ k out,
      BackgroundReplacer.replace_with_blur original mask k path = Except.ok out →
      ∀ row ∈ out.data, ∀ px ∈ row, px.a = 255) := by
  constructor
  · intro k hk
    have hodd : BackgroundReplacer.forceOdd k = BackgroundReplacer.forceOdd (k + 1) := by
      unfold BackgroundReplacer.forceOdd
      rw [if_pos hk, if_neg (by omega)]
    unfold BackgroundReplacer.replace_with_blur
    rw [hodd]
  · intro k out h
    unfold BackgroundReplacer.replace_with_blur at h
    by_cases hc : BackgroundReplacer.maskShape mask ≠ (original.height, original.width)
    · rw [if_pos hc] at h
      exact absurd h (by simp)
    · rw [if_neg hc] at h
      simp only [Except.ok.injEq] at h
      subst h
      intro row hrow px hpx
      obtain ⟨irow, brow, arow, hr⟩ := mem_zipWith3 _ _ _ _ row hrow
      subst hr
      obtain ⟨p, b, a, hp⟩ := mem_zipWith3 _ _ _ _ px hpx
      subst hp
      rfl

/-- **C8** witness: the theorem applied at a concrete 1×1 image/mask, with the
even kernel hypothesis discharged at k = 0 and the success hypothesis
discharged on the evaluated output. -/
theorem C8_blur_even_and_alpha255_witness :
    ((0 : ℕ) % 2 = 0) ∧
    BackgroundReplacer.replace_with_blur ⟨[[RGB.mk 0 0 0]], 1, 1, "p"⟩
        ⟨[[0]], 1, 1, false⟩ 0 "o" =
      BackgroundReplacer.replace_with_blur ⟨[[RGB.mk 0 0 0]], 1, 1, "p"⟩
        ⟨[[0]], 1, 1, false⟩ 1 "o" ∧
    BackgroundReplacer.replace_with_blur ⟨[[RGB.mk 0 0 0]], 1, 1, "p"⟩
        ⟨[[0]], 1, 1, false⟩ 0 "o" =
      Except.ok ⟨[[RGBA.mk 0 0 0 255]], 1, 1, "o"⟩ ∧
    (∀ row ∈ (ImageOutput.mk [[RGBA.mk 0 0 0 255]] 1 1 "o").data,
      ∀ px ∈ row, px.a = 255) := by
  have hok : BackgroundReplacer.replace_with_blur ⟨[[RGB.mk 0 0 0]], 1, 1, "p"⟩
      ⟨[[0]], 1, 1, false⟩ 0 "o" =
      Except.ok ⟨[[RGBA.mk 0 0 0 255]], 1, 1, "o"⟩ := by
    norm_num [BackgroundReplacer.replace_with_blur, BackgroundReplacer.maskShape,
      BackgroundReplacer.normalizeAlpha, gridMax, BackgroundReplacer.gaussBlurRGB,
      BackgroundReplacer.blurSampleRGB, BackgroundReplacer.gaussKernel1D,
      BackgroundReplacer.forceOdd, BackgroundReplacer.borderClamp,
      BackgroundReplacer.blendPixel, astypeUint8, npClip, List.zipWith3,
      genGrid, List.range_succ, List.enum, List.enumFrom]
  exact ⟨rfl,
    (C8_blur_even_and_alpha255 ⟨[[RGB.mk 0 0 0]], 1, 1, "p"⟩ ⟨[[0]], 1, 1, false⟩ "o").1 0 rfl,
    hok,
    (C8_blur_even_and_alpha255 ⟨[[RGB.mk 0 0 0]], 1, 1, "p"⟩ ⟨[[0]], 1, 1, false⟩ "o").2 0
      ⟨[[RGBA.mk 0 0 0 255]], 1, 1, "o"⟩ hok⟩

/-! ## C9: exporter scale auto-detection -/

theorem le_foldr_max (l : List ℚ) (x : ℚ) (hx : x ∈ l) : x ≤ l.foldr max 0 := by
  induction l with
  | nil => simp at hx
  | cons a t ih =>
      rcases List.mem_cons.1 hx with h | h
      · subst h; simp
      · exact le_trans (ih h) (by simp)

theorem gridMax_lt_of_mem (d : List (List ℚ)) (row : List ℚ) (v : ℚ) (c : ℚ)
    (hrow : row ∈ d) (hv : v ∈ row) (hc : c < v) : c < gridMax d := by
  refine lt_of_lt_of_le hc ?_
  unfold gridMax
  exact le_foldr_max _ _ (List.mem_flatten.2 ⟨row, hrow, hv⟩)

theorem scale255_div255 (d : List (List ℚ)) :
    (d.map (List.map (fun v => v * 255))).map (List.map (fun v => v / 255)) = d := by
  rw [List.map_map]
  have : (List.map (fun v : ℚ => v / 255)) ∘ (List.map (fun v : ℚ => v * 255)) =
      List.map ((fun v : ℚ => v / 255) ∘ (fun v : ℚ => v * 255)) := by
    funext row
    simp [List.map_map]
  rw [this]
  have hid : ((fun v : ℚ => v / 255) ∘ (fun v : ℚ => v * 255)) = id := by
    funext v
    simp only [Function.comp_apply, id_eq]
    field_simp
  rw [hid]
  simp

/-- **C9** (amended): no exporter ever produces an output — each ends in
`ImageOutput(data=rgba, width=..., height=..., format="RGBA")`, which raises
`TypeError` unconditionally (`ImageOutput` has no `format` field and requires
`original_path`). On the pixel buffers computed before the failing call, the
scale auto-detection rule operates on the raw data values, and the detection
branch only fires when some value of the pre-scaled counterpart exceeds 1 —
which `Mask.__post_init__` forbids, so a pre-scaled 0-255 mask is
constructible only when all original values are ≤ 1/255, exactly where
detection does not fire. At the data level the rule works: for every mask with
values in [0, 1] at least one of which exceeds 1/255, each of the three buffer
computations yields the same result on that mask and on its unvalidated ×255
counterpart. -/
theorem C9_exporter_scale_detection (m m' : Mask)
    (hd : m'.data = m.data.map (List.map (fun v => v * 255)))
    (hrange : ∀ row ∈ m.data, ∀ v ∈ row, 0 ≤ v ∧ v ≤ 1)
    (hdet : ∃ row ∈ m.data, ∃ v ∈ row, 1/255 < v) :
    MaskExporter.grayscaleData m' = MaskExporter.grayscaleData m ∧
    (∀ θ : ℚ, MaskExporter.binaryData m' θ = MaskExporter.binaryData m θ) ∧
    MaskExporter.alphaOnlyData m' = MaskExporter.alphaOnlyData m ∧
    MaskExporter.export_as_grayscale m = Except.error MaskExporter.PyErr.typeError ∧
    (∀ θ : ℚ, MaskExporter.export_as_binary m θ =
      Except.error MaskExporter.PyErr.typeError) ∧
    MaskExporter.export_as_alpha_only m = Except.error MaskExporter.PyErr.typeError := by
  have hmax : gridMax m.data ≤ 1 := by
    unfold gridMax
    refine foldr_max_le _ _ (by norm_num) ?_
    intro x hx
    rw [List.mem_flatten] at hx
    obtain ⟨row, hrow, hxr⟩ := hx
    exact (hrange row hrow x hxr).2
  have hmax' : 1 < gridMax m'.data := by
    obtain ⟨row, hrow, v, hv, hlt⟩ := hdet
    refine gridMax_lt_of_mem m'.data (row.map (fun v => v * 255)) (v * 255) 1
      ?_ (List.mem_map_of_mem _ hv) (by linarith)
    rw [hd]
    exact List.mem_map_of_mem _ hrow
  refine ⟨?_, ?_, ?_, rfl, fun _ => rfl, rfl⟩
  · unfold MaskExporter.grayscaleData
    rw [if_neg (by push_neg; exact hmax'), if_pos hmax, hd]
  · intro θ
    unfold MaskExporter.binaryData
    rw [if_pos hmax', if_neg (by push_neg; exact hmax), hd, scale255_div255]
  · unfold MaskExporter.alphaOnlyData
    rw [if_neg (by push_neg; exact hmax'), if_pos hmax, hd]

/-- **C9** witness: the amended theorem applied to the 1×2 mask with values
`[1/255, 2/255]` and its ×255 counterpart `[1, 2]`. -/
theorem C9_exporter_scale_detection_witness :
    (Mask.mk [[1/255, 2/255]] 2 1 false).data.map (List.map (fun v => v * 255)) =
      (Mask.mk [[1, 2]] 2 1 false).data ∧
    (∀ row ∈ (Mask.mk [[1/255, 2/255]] 2 1 false).data, ∀ v ∈ row, 0 ≤ v ∧ v ≤ 1) ∧
    (∃ row ∈ (Mask.mk [[1/255, 2/255]] 2 1 false).data, ∃ v ∈ row, 1/255 < v) ∧
    (MaskExporter.grayscaleData (Mask.mk [[1, 2]] 2 1 false) =
      MaskExporter.grayscaleData (Mask.mk [[1/255, 2/255]] 2 1 false) ∧
    (∀ θ : ℚ, MaskExporter.binaryData (Mask.mk [[1, 2]] 2 1 false) θ =
      MaskExporter.binaryData (Mask.mk [[1/255, 2/255]] 2 1 false) θ) ∧
    MaskExporter.alphaOnlyData (Mask.mk [[1, 2]] 2 1 false) =
      MaskExporter.alphaOnlyData (Mask.mk [[1/255, 2/255]] 2 1 false) ∧
    MaskExporter.export_as_grayscale (Mask.mk [[1/255, 2/255]] 2 1 false) =
      Except.error MaskExporter.PyErr.typeError ∧
    (∀ θ : ℚ, MaskExporter.export_as_binary (Mask.mk [[1/255, 2/255]] 2 1 false) θ =
      Except.error MaskExporter.PyErr.typeError) ∧
    MaskExporter.export_as_alpha_only (Mask.mk [[1/255, 2/255]] 2 1 false) =
      Except.error MaskExporter.PyErr.typeError) :=
  ⟨by norm_num,
   by norm_num,
   ⟨[1/255, 2/255], by norm_num, 2/255, by norm_num, by norm_num⟩,
   C9_exporter_scale_detection (Mask.mk [[1/255, 2/255]] 2 1 false)
     (Mask.mk [[1, 2]] 2 1 false) (by norm_num) (by norm_num)
     ⟨[1/255, 2/255], by norm_num, 2/255, by norm_num, by norm_num⟩⟩

/-- **C9** counterexample: the claim as stated quantifies over masks on which
both the [0,1] input and its ×255 counterpart can be constructed, and asserts
each exporter produces the same output on both. With the 1×1 mask 1/255 and
its counterpart 1 — both satisfying the Mask invariant — `export_grayscale`
produces no output on either input (its `ImageOutput(..., format="RGBA")`
constructor call raises `TypeError`), and even the grayscale buffers computed
before the failing call differ: gray 1 versus gray 255, because both inputs
have maximum ≤ 1.0 and are treated as [0,1]-scaled, so the detection never
sees a pre-scaled input. -/
theorem C9_exporter_scale_cex :
    Mask.wf (Mask.mk [[1/255]] 1 1 false) ∧
    Mask.wf (Mask.mk [[1]] 1 1 false) ∧
    (Mask.mk [[1/255]] 1 1 false).data.map (List.map (fun v => v * 255)) =
      (Mask.mk [[1]] 1 1 false).data ∧
    (∀ o : ImageOutput,
      MaskExporter.export_as_grayscale (Mask.mk [[1/255]] 1 1 false) ≠ Except.ok o) ∧
    (∀ o : ImageOutput,
      MaskExporter.export_as_grayscale (Mask.mk [[1]] 1 1 false) ≠ Except.ok o) ∧
    MaskExporter.grayscaleData (Mask.mk [[1/255]] 1 1 false) =
      [[RGBA.mk 1 1 1 255]] ∧
    MaskExporter.grayscaleData (Mask.mk [[1]] 1 1 false) =
      [[RGBA.mk 255 255 255 255]] ∧
    MaskExporter.grayscaleData (Mask.mk [[1/255]] 1 1 false) ≠
      MaskExporter.grayscaleData (Mask.mk [[1]] 1 1 false) := by
  have h1 : MaskExporter.grayscaleData (Mask.mk [[1/255]] 1 1 false) =
      [[RGBA.mk 1 1 1 255]] := by
    norm_num [MaskExporter.grayscaleData, gridMax, astypeUint8, npClip]
  have h2 : MaskExporter.grayscaleData (Mask.mk [[1]] 1 1 false) =
      [[RGBA.mk 255 255 255 255]] := by
    norm_num [MaskExporter.grayscaleData, gridMax, astypeUint8, npClip]
    rfl
  refine ⟨by norm_num [Mask.wf, rectGrid], by norm_num [Mask.wf, rectGrid],
    by norm_num, fun o ho => by simp [MaskExporter.export_as_grayscale] at ho,
    fun o ho => by simp [MaskExporter.export_as_grayscale] at ho,
    h1, h2, ?_⟩
  rw [h1, h2]
  simp

/-! ## C4: refine safety — helper lemmas -/

/-- All values of a float grid lie in [0, 1] (the Mask value invariant). -/
def gridVals01 (d : List (List ℚ)) : Prop :=
  ∀ row ∈ d, ∀ v ∈ row, 0 ≤ v ∧ v ≤ 1

/-- All values of a uint8 grid are ≤ 255. -/
def gridLe255 (u : List (List ℕ)) : Prop :=
  ∀ row ∈ u, ∀ n ∈ row, n ≤ 255

theorem rectGrid_map {α β : Type} (f : α → β) (d : List (List α)) (h w : ℕ)
    (hd : rectGrid d h w) : rectGrid (d.map (List.map f)) h w := by
  constructor
  · rw [List.length_map]; exact hd.1
  · intro row hrow
    rw [List.mem_map] at hrow
    obtain ⟨orig, ho, he⟩ := hrow
    rw [← he, List.length_map]
    exact hd.2 orig ho

theorem rectGrid_genGrid {α : Type} (H W : ℕ) (f : ℕ → ℕ → α) :
    rectGrid (genGrid H W f) H W := by
  constructor
  · simp [genGrid]
  · intro row hrow
    rw [genGrid, List.mem_map] at hrow
    obtain ⟨y, _, he⟩ := hrow
    simp [← he]

theorem genGrid_vals {α : Type} (H W : ℕ) (f : ℕ → ℕ → α) (P : α → Prop)
    (hf : ∀ y x, P (f y x)) :
    ∀ row ∈ genGrid H W f, ∀ v ∈ row, P v := by
  intro row hrow v hv
  rw [genGrid, List.mem_map] at hrow
  obtain ⟨y, _, he⟩ := hrow
  rw [← he, List.mem_map] at hv
  obtain ⟨x, _, hx⟩ := hv
  rw [← hx]
  exact hf y x

theorem headD_length_of_rect {α : Type} (g : List (List α)) (h w : ℕ)
    (hg : rectGrid g h w) (hpos : 0 < h) : (g.headD []).length = w := by
  have hne : g ≠ [] := by
    intro hnil
    rw [hnil] at hg
    simp [rectGrid] at hg
    omega
  cases g with
  | nil => exact absurd rfl hne
  | cons a t => exact hg.2 a (by simp)

theorem rect_of_genGrid_shape {α : Type} (g : List (List β)) (h w : ℕ)
    (hg : rectGrid g h w) (f : ℕ → ℕ → α) :
    rectGrid (genGrid g.length ((g.headD []).length) f) h w := by
  rcases Nat.eq_zero_or_pos h with h0 | hpos
  · subst h0
    have : g = [] := List.length_eq_zero.1 hg.1
    subst this
    exact ⟨by simp [genGrid], by simp [genGrid]⟩
  · rw [hg.1, headD_length_of_rect g h w hg hpos]
    exact rectGrid_genGrid h w f

theorem getD_le_of_all (l : List ℕ) (i c : ℕ)
    (h : ∀ n ∈ l, n ≤ c) : l.getD i 0 ≤ c := by
  by_cases hi : i < l.length
  · exact h _ (getD_mem_of_lt l i 0 hi)
  · rw [List.getD_eq_default]
    · exact Nat.zero_le c
    · omega

theorem gridAt_le_255 (g : List (List ℕ)) (hg : gridLe255 g) (iy ix : ℕ) :
    (g.getD iy []).getD ix 0 ≤ 255 := by
  by_cases hi : iy < g.length
  · exact getD_le_of_all _ ix 255 (hg _ (getD_mem_of_lt g iy [] hi))
  · have hrow : g.getD iy [] = [] := List.getD_eq_default _ _ (by omega)
    rw [hrow]
    simp

theorem astypeUint8_le_255 (q : ℚ) (h : q ≤ 255) : astypeUint8 q ≤ 255 := by
  unfold astypeUint8
  rw [Int.toNat_le]
  calc ⌊q⌋ ≤ ⌊(255 : ℚ)⌋ := Int.floor_le_floor h
    _ = 255 := by norm_num

theorem foldr_min_le_init (l : List ℕ) (c : ℕ) : l.foldr min c ≤ c := by
  induction l with
  | nil => simp
  | cons a t ih => exact le_trans (by simp) ih

theorem foldr_max_le_nat (l : List ℕ) (c : ℕ) (h : ∀ x ∈ l, x ≤ c) :
    l.foldr max 0 ≤ c := by
  induction l with
  | nil => simp
  | cons a t ih =>
      simp only [List.foldr_cons, max_le_iff]
      exact ⟨h a (by simp), ih (fun x hx => h x (by simp [hx]))⟩

theorem morphVals_le (ker : List (List Bool)) (g : List (List ℕ)) (H W y x : ℕ)
    (hg : gridLe255 g) :
    ∀ v ∈ PostProcessMask.morphVals ker g H W y x, v ≤ 255 := by
  intro v hv
  unfold PostProcessMask.morphVals at hv
  rw [List.mem_filterMap] at hv
  obtain ⟨d, _, hd⟩ := hv
  by_cases hc : ((ker.getD d.1 []).getD d.2 false) = true ∧
      0 ≤ (y : ℤ) + d.1 - (ker.length / 2 : ℕ) ∧
      (y : ℤ) + d.1 - (ker.length / 2 : ℕ) < (H : ℤ) ∧
      0 ≤ (x : ℤ) + d.2 - (ker.length / 2 : ℕ) ∧
      (x : ℤ) + d.2 - (ker.length / 2 : ℕ) < (W : ℤ)
  · rw [if_pos hc, Option.some.injEq] at hd
    rw [← hd]
    exact gridAt_le_255 g hg _ _
  · rw [if_neg hc] at hd
    exact absurd hd (by simp)

theorem erode_le_255 (ker : List (List Bool)) (g : List (List ℕ)) :
    gridLe255 (PostProcessMask.erode ker g) := by
  unfold PostProcessMask.erode
  exact genGrid_vals _ _ _ _ (fun y x => foldr_min_le_init _ 255)

theorem dilate_le_255 (ker : List (List Bool)) (g : List (List ℕ))
    (hg : gridLe255 g) : gridLe255 (PostProcessMask.dilate ker g) := by
  unfold PostProcessMask.dilate
  exact genGrid_vals _ _ _ _
    (fun y x => foldr_max_le_nat _ 255 (morphVals_le ker g _ _ y x hg))

theorem list_sum_range (n : ℕ) (f : ℕ → ℚ) :
    ((List.range n).map f).sum = ∑ i ∈ Finset.range n, f i := by
  induction n with
  | zero => simp
  | succ m ih =>
      rw [List.range_succ, Finset.sum_range_succ, List.map_append,
        List.sum_append, ih]
      simp

theorem gaussKernel1D_nonneg (k : ℕ) :
    ∀ w ∈ BackgroundReplacer.gaussKernel1D k, 0 ≤ w := by
  intro w hw
  unfold BackgroundReplacer.gaussKernel1D at hw
  rw [List.mem_map] at hw
  obtain ⟨i, _, he⟩ := hw
  rw [← he]
  positivity

theorem gaussKernel1D_sum (k : ℕ) (hk : 0 < k) :
    (BackgroundReplacer.gaussKernel1D k).sum = 1 := by
  unfold BackgroundReplacer.gaussKernel1D
  rw [list_sum_range]
  rw [← Finset.sum_div]
  rw [div_eq_one_iff_eq (by positivity)]
  obtain ⟨m, rfl⟩ : ∃ m, k = m + 1 := ⟨k - 1, by omega⟩
  simp only [Nat.add_sub_cancel]
  rw [← Nat.cast_sum]
  rw [Nat.sum_range_choose m]
  push_cast
  ring

theorem enum_snd_mem {α : Type} (l : List α) (p : ℕ × α) (hp : p ∈ l.enum) :
    p.2 ∈ l := by
  have : p.2 ∈ l.enum.map Prod.snd := List.mem_map_of_mem Prod.snd hp
  rwa [List.enum_map_snd] at this

theorem list_sum_mul_const (l : List ℚ) (c : ℚ) :
    (l.map (fun x => x * c)).sum = l.sum * c := by
  induction l with
  | nil => simp
  | cons a t ih => simp [ih]; ring

theorem sum_enum_mul_const (ker : List ℚ) (c : ℚ) :
    (ker.enum.map (fun p => p.2 * c)).sum = ker.sum * c := by
  have h1 : ker.enum.map (fun p => p.2 * c) =
      (ker.enum.map Prod.snd).map (fun x => x * c) := by
    rw [List.map_map]
    rfl
  rw [h1, List.enum_map_snd, list_sum_mul_const]

theorem blurSample_bound (ker : List ℚ) (g : List (List ℕ)) (H W y x : ℕ)
    (hker : ∀ w ∈ ker, 0 ≤ w) (hsum : ker.sum = 1) (hg : gridLe255 g) :
    0 ≤ PostProcessMask.blurSample ker g H W y x ∧
      PostProcessMask.blurSample ker g H W y x ≤ 255 := by
  simp only [PostProcessMask.blurSample]
  constructor
  · apply List.sum_nonneg
    intro v hv
    rw [List.mem_map] at hv
    obtain ⟨p, hp, he⟩ := hv
    rw [← he]
    apply mul_nonneg (hker _ (enum_snd_mem ker p hp))
    apply List.sum_nonneg
    intro u hu
    rw [List.mem_map] at hu
    obtain ⟨q, hq, hue⟩ := hu
    rw [← hue]
    apply mul_nonneg (hker _ (enum_snd_mem ker q hq))
    positivity
  · calc _ ≤ (ker.enum.map (fun p : ℕ × ℚ => p.2 * 255)).sum := by
          apply List.sum_le_sum
          intro p hp
          refine mul_le_mul_of_nonneg_left ?_ (hker _ (enum_snd_mem ker p hp))
          calc _ ≤ (ker.enum.map (fun q : ℕ × ℚ => q.2 * 255)).sum := by
                apply List.sum_le_sum
                intro q hq
                refine mul_le_mul_of_nonneg_left ?_ (hker _ (enum_snd_mem ker q hq))
                exact_mod_cast gridAt_le_255 g hg _ _
            _ = ker.sum * 255 := sum_enum_mul_const ker 255
            _ = 255 := by rw [hsum]; ring
      _ = ker.sum * 255 := sum_enum_mul_const ker 255
      _ = 255 := by rw [hsum]; ring

theorem round_toNat_le_255 (q : ℚ) (h : q ≤ 255) : (round q).toNat ≤ 255 := by
  rw [Int.toNat_le, round_eq]
  calc ⌊q + 1 / 2⌋ ≤ ⌊(255 : ℚ) + 1 / 2⌋ := Int.floor_le_floor (by linarith)
    _ = 255 := by norm_num [Int.floor_eq_iff]

theorem gaussBlurChan_le_255 (ker : List ℚ) (g : List (List ℕ))
    (hker : ∀ w ∈ ker, 0 ≤ w) (hsum : ker.sum = 1) (hg : gridLe255 g) :
    gridLe255 (PostProcessMask.gaussBlurChan ker g) := by
  unfold PostProcessMask.gaussBlurChan
  exact genGrid_vals _ _ _ _ (fun y x =>
    round_toNat_le_255 _ (blurSample_bound ker g _ _ y x hker hsum hg).2)

theorem toUint8Grid_le (d : List (List ℚ)) (hd : gridVals01 d) :
    gridLe255 (PostProcessMask.toUint8Grid d) := by
  intro row hrow n hn
  unfold PostProcessMask.toUint8Grid at hrow
  rw [List.mem_map] at hrow
  obtain ⟨orig, ho, he⟩ := hrow
  rw [← he, List.mem_map] at hn
  obtain ⟨v, hv, hne⟩ := hn
  rw [← hne]
  have hv1 := (hd orig ho v hv).2
  exact astypeUint8_le_255 _ (by linarith)

theorem toUint8Grid_rect (d : List (List ℚ)) (h w : ℕ) (hd : rectGrid d h w) :
    rectGrid (PostProcessMask.toUint8Grid d) h w :=
  rectGrid_map _ d h w hd

theorem fromUint8Grid_vals (u : List (List ℕ)) (hu : gridLe255 u) :
    gridVals01 (PostProcessMask.fromUint8Grid u) := by
  intro row hrow v hv
  unfold PostProcessMask.fromUint8Grid at hrow
  rw [List.mem_map] at hrow
  obtain ⟨orig, ho, he⟩ := hrow
  rw [← he, List.mem_map] at hv
  obtain ⟨n, hn, hne⟩ := hv
  rw [← hne]
  constructor
  · positivity
  · rw [div_le_one (by norm_num)]
    exact_mod_cast hu orig ho n hn

theorem fromUint8Grid_rect (u : List (List ℕ)) (h w : ℕ) (hu : rectGrid u h w) :
    rectGrid (PostProcessMask.fromUint8Grid u) h w :=
  rectGrid_map _ u h w hu

theorem erode_rect (ker : List (List Bool)) (g : List (List ℕ)) (h w : ℕ)
    (hg : rectGrid g h w) : rectGrid (PostProcessMask.erode ker g) h w := by
  unfold PostProcessMask.erode
  exact rect_of_genGrid_shape g h w hg _

theorem dilate_rect (ker : List (List Bool)) (g : List (List ℕ)) (h w : ℕ)
    (hg : rectGrid g h w) : rectGrid (PostProcessMask.dilate ker g) h w := by
  unfold PostProcessMask.dilate
  exact rect_of_genGrid_shape g h w hg _

theorem gaussBlurChan_rect (ker : List ℚ) (g : List (List ℕ)) (h w : ℕ)
    (hg : rectGrid g h w) : rectGrid (PostProcessMask.gaussBlurChan ker g) h w := by
  unfold PostProcessMask.gaussBlurChan
  exact rect_of_genGrid_shape g h w hg _

theorem thresholdStep_preserves (θ : ℚ) (b : Bool) (d : List (List ℚ)) (h w : ℕ)
    (hrect : rectGrid d h w) (hvals : gridVals01 d) :
    rectGrid (PostProcessMask.thresholdStep θ b d) h w ∧
      gridVals01 (PostProcessMask.thresholdStep θ b d) := by
  unfold PostProcessMask.thresholdStep
  by_cases hc : b = false ∧ 0 < θ
  · rw [if_pos hc]
    refine ⟨rectGrid_map _ d h w hrect, ?_⟩
    intro row hrow v hv
    rw [List.mem_map] at hrow
    obtain ⟨orig, _, he⟩ := hrow
    rw [← he, List.mem_map] at hv
    obtain ⟨u, _, hue⟩ := hv
    rw [← hue]
    split_ifs <;> norm_num
  · rw [if_neg hc]
    exact ⟨hrect, hvals⟩

theorem smoothStep_preserves (sp : ℕ) (d : List (List ℚ)) (h w : ℕ)
    (hrect : rectGrid d h w) (hvals : gridVals01 d) :
    rectGrid (PostProcessMask.smoothStep sp d) h w ∧
      gridVals01 (PostProcessMask.smoothStep sp d) := by
  unfold PostProcessMask.smoothStep
  by_cases hsp : 0 < sp
  · rw [if_pos hsp]
    have h1r := toUint8Grid_rect d h w hrect
    have h1v := toUint8Grid_le d hvals
    have h2r := erode_rect (PostProcessMask.ellipseKernel (sp * 2 + 1)) _ h w h1r
    have h2v := erode_le_255 (PostProcessMask.ellipseKernel (sp * 2 + 1))
      (PostProcessMask.toUint8Grid d)
    have h3r := dilate_rect (PostProcessMask.ellipseKernel (sp * 2 + 1)) _ h w h2r
    have h3v := dilate_le_255 (PostProcessMask.ellipseKernel (sp * 2 + 1)) _ h2v
    have h4r := dilate_rect (PostProcessMask.ellipseKernel (sp * 2 + 1)) _ h w h3r
    have h4v := dilate_le_255 (PostProcessMask.ellipseKernel (sp * 2 + 1)) _ h3v
    have h5r := erode_rect (PostProcessMask.ellipseKernel (sp * 2 + 1)) _ h w h4r
    have h5v := erode_le_255 (PostProcessMask.ellipseKernel (sp * 2 + 1))
      (PostProcessMask.dilate (PostProcessMask.ellipseKernel (sp * 2 + 1))
        (PostProcessMask.dilate (PostProcessMask.ellipseKernel (sp * 2 + 1))
          (PostProcessMask.erode (PostProcessMask.ellipseKernel (sp * 2 + 1))
            (PostProcessMask.toUint8Grid d))))
    exact ⟨fromUint8Grid_rect _ h w h5r, fromUint8Grid_vals _ h5v⟩
  · rw [if_neg hsp]
    exact ⟨hrect, hvals⟩

theorem featherStep_preserves (fp : ℕ) (d : List (List ℚ)) (h w : ℕ)
    (hrect : rectGrid d h w) (hvals : gridVals01 d) :
    rectGrid (PostProcessMask.featherStep fp d) h w ∧
      gridVals01 (PostProcessMask.featherStep fp d) := by
  unfold PostProcessMask.featherStep
  by_cases hfp : 0 < fp
  · rw [if_pos hfp]
    have h1r := toUint8Grid_rect d h w hrect
    have h1v := toUint8Grid_le d hvals
    have h2r := gaussBlurChan_rect
      (BackgroundReplacer.gaussKernel1D (fp * 2 + 1)) _ h w h1r
    have h2v := gaussBlurChan_le_255
      (BackgroundReplacer.gaussKernel1D (fp * 2 + 1)) _
      (gaussKernel1D_nonneg (fp * 2 + 1))
      (gaussKernel1D_sum (fp * 2 + 1) (by omega)) h1v
    exact ⟨fromUint8Grid_rect _ h w h2r, fromUint8Grid_vals _ h2v⟩
  · rw [if_neg hfp]
    exact ⟨hrect, hvals⟩

/-- **C4**: for every well-formed `Mask` and every valid `RefineParams`,
`refine` never fails: its result always satisfies the Mask construction
invariant (rectangular data of the declared shape with every value in [0, 1])
and always has `is_binary = false`, for every combination of threshold,
smooth and feather radii, including when feathering is skipped. -/
theorem C4_refine_safe (m : Mask) (s : PostProcessMask.Settings)
    (hm : m.wf) (_hs : s.wf) :
    (PostProcessMask.apply m s).wf ∧
      (PostProcessMask.apply m s).is_binary = false := by
  obtain ⟨hrect, hvals⟩ := hm
  have h1 := thresholdStep_preserves s.threshold m.is_binary m.data
    m.height m.width hrect hvals
  have h2 := smoothStep_preserves s.smooth_pixels _ m.height m.width h1.1 h1.2
  have h3 := featherStep_preserves s.feather_pixels _ m.height m.width h2.1 h2.2
  exact ⟨⟨h3.1, h3.2⟩, rfl⟩

/-- **C4** witness: the theorem applied to a concrete 2×2 mask with the
default-like settings (threshold 1/2, smoothing radius 1, feathering
radius 1), which exercise every branch of the algorithm. -/
theorem C4_refine_safe_witness :
    Mask.wf (Mask.mk [[0, 1], [1, 1]] 2 2 false) ∧
    PostProcessMask.Settings.wf (PostProcessMask.Settings.mk (1/2) 1 1) ∧
    ((PostProcessMask.apply (Mask.mk [[0, 1], [1, 1]] 2 2 false)
        (PostProcessMask.Settings.mk (1/2) 1 1)).wf ∧
      (PostProcessMask.apply (Mask.mk [[0, 1], [1, 1]] 2 2 false)
        (PostProcessMask.Settings.mk (1/2) 1 1)).is_binary = false) :=
  ⟨by norm_num [Mask.wf, rectGrid],
   by norm_num [PostProcessMask.Settings.wf],
   C4_refine_safe _ _ (by norm_num [Mask.wf, rectGrid])
     (by norm_num [PostProcessMask.Settings.wf])⟩

/-! ## C5 and C10: content cropping — helper lemmas -/

theorem mem_trueIdxs (bs : List Bool) (i : ℕ) :
    i ∈ AutoCrop.trueIdxs bs ↔ i < bs.length ∧ bs.getD i false = true := by
  unfold AutoCrop.trueIdxs
  rw [List.mem_filter, List.mem_range]

theorem trueIdxs_pairwise (bs : List Bool) :
    (AutoCrop.trueIdxs bs).Pairwise (· < ·) :=
  (List.pairwise_lt_range bs.length).sublist (List.filter_sublist _)

theorem headD_mem_of_ne (l : List ℕ) (h : l ≠ []) : l.headD 0 ∈ l := by
  cases l with
  | nil => exact absurd rfl h
  | cons a t => simp

theorem getLastD_mem_of_ne (l : List ℕ) (h : l ≠ []) : l.getLastD 0 ∈ l := by
  rw [List.getLastD_eq_getLast? 0 l, List.getLast?_eq_getLast l h]
  simp [List.getLast_mem h]

theorem headD_le_of_sorted (l : List ℕ) (hp : l.Pairwise (· < ·)) (x : ℕ)
    (hx : x ∈ l) : l.headD 0 ≤ x := by
  cases l with
  | nil => simp at hx
  | cons a t =>
      rcases List.mem_cons.1 hx with h | h
      · simp [h]
      · exact le_trans (by simp) (le_of_lt ((List.pairwise_cons.1 hp).1 x h))

theorem le_getLastD_aux (l : List ℕ) :
    ∀ (d : ℕ), l.Pairwise (· < ·) → (∀ y ∈ l, d ≤ y) →
      ∀ x, (x ∈ l ∨ x = d) → x ≤ l.getLastD d := by
  induction l with
  | nil =>
      intro d _ _ x hx
      rcases hx with h | h
      · simp at h
      · simp [h]
  | cons a t ih =>
      intro d hp hd x hx
      rw [List.getLastD_cons]
      have hta : ∀ y ∈ t, a ≤ y :=
        fun y hy => le_of_lt ((List.pairwise_cons.1 hp).1 y hy)
      have htp : t.Pairwise (· < ·) := (List.pairwise_cons.1 hp).2
      rcases hx with h | h
      · rcases List.mem_cons.1 h with h' | h'
        · exact h' ▸ ih a htp hta x (Or.inr h')
        · exact ih a htp hta x (Or.inl h')
      · exact le_trans (h ▸ hd a (by simp)) (ih a htp hta a (Or.inr rfl))

theorem le_getLastD_of_sorted (l : List ℕ) (hp : l.Pairwise (· < ·)) (x : ℕ)
    (hx : x ∈ l) : x ≤ l.getLastD 0 :=
  le_getLastD_aux l 0 hp (fun y _ => Nat.zero_le y) x (Or.inl hx)

theorem trueIdxs_ne_nil_of_any (bs : List Bool) (h : bs.any id = true) :
    AutoCrop.trueIdxs bs ≠ [] := by
  rw [List.any_eq_true] at h
  obtain ⟨b, hb, hbt⟩ := h
  obtain ⟨i, hi, he⟩ := List.getElem_of_mem hb
  have : i ∈ AutoCrop.trueIdxs bs := by
    rw [mem_trueIdxs]
    refine ⟨hi, ?_⟩
    rw [List.getD_eq_getElem?_getD, List.getElem?_eq_getElem hi, he]
    simpa using hbt
  intro hnil
  rw [hnil] at this
  simp at this

theorem getD_map_of_lt {α β : Type} (f : α → β) (l : List α) (i : ℕ)
    (d : α) (dg : β) (h : i < l.length) : (l.map f).getD i dg = f (l.getD i d) := by
  rw [List.getD_eq_getElem?_getD, List.getElem?_map,
    List.getElem?_eq_getElem h, List.getD_eq_getElem?_getD,
    List.getElem?_eq_getElem h]
  rfl

theorem getD_drop_take {α : Type} (l : List α) (a b i : ℕ) (d : α)
    (hi : i < b) : ((l.drop a).take b).getD i d = l.getD (a + i) d := by
  rw [List.getD_eq_getElem?_getD, List.getD_eq_getElem?_getD,
    List.getElem?_take, if_pos hi, List.getElem?_drop]

theorem rowOcc_iff (t : ℕ) (row : List RGBA) :
    AutoCrop.rowOcc t row = true ↔ ∃ p ∈ row, t ≤ p.a := by
  unfold AutoCrop.rowOcc
  rw [List.any_eq_true]
  simp

theorem colOcc_iff (t : ℕ) (g : List (List RGBA)) (j : ℕ) :
    AutoCrop.colOcc t g j = true ↔
      ∃ row ∈ g, ∃ p, row.get? j = some p ∧ t ≤ p.a := by
  unfold AutoCrop.colOcc
  rw [List.any_eq_true]
  constructor
  · rintro ⟨row, hrow, hgd⟩
    refine ⟨row, hrow, ?_⟩
    cases hj : row.get? j with
    | none => rw [hj] at hgd; simp at hgd
    | some p =>
        rw [hj] at hgd
        simp at hgd
        exact ⟨p, rfl, hgd⟩
  · rintro ⟨row, hrow, p, hp, hpa⟩
    refine ⟨row, hrow, ?_⟩
    rw [hp]
    simpa using hpa

theorem get?_mem_of_some {α : Type} (l : List α) (i : ℕ) (a : α)
    (h : l.get? i = some a) : a ∈ l := by
  rw [List.get?_eq_getElem?] at h
  exact List.getElem?_mem h

theorem mem_get?_exists {α : Type} (l : List α) (a : α) (h : a ∈ l) :
    ∃ i, i < l.length ∧ l.get? i = some a := by
  obtain ⟨i, hi, he⟩ := List.getElem_of_mem h
  exact ⟨i, hi, by rw [List.get?_eq_getElem?, List.getElem?_eq_getElem hi, he]⟩

/-- Extremes of `np.where(rows)[0]` over a row-occupancy vector `l.map f`:
both are valid occupied indices, ordered, and they bracket every occupied
index. -/
theorem trueIdxs_map_facts {α : Type} (f : α → Bool) (l : List α) (d : α)
    (hany : ((l.map f).any id) = true) :
    (AutoCrop.trueIdxs (l.map f)).headD 0 < l.length ∧
    f (l.getD ((AutoCrop.trueIdxs (l.map f)).headD 0) d) = true ∧
    (AutoCrop.trueIdxs (l.map f)).getLastD 0 < l.length ∧
    f (l.getD ((AutoCrop.trueIdxs (l.map f)).getLastD 0) d) = true ∧
    (AutoCrop.trueIdxs (l.map f)).headD 0 ≤ (AutoCrop.trueIdxs (l.map f)).getLastD 0 ∧
    (∀ i, i < l.length → f (l.getD i d) = true →
      (AutoCrop.trueIdxs (l.map f)).headD 0 ≤ i ∧
        i ≤ (AutoCrop.trueIdxs (l.map f)).getLastD 0) := by
  have hne := trueIdxs_ne_nil_of_any _ hany
  have hhead := headD_mem_of_ne _ hne
  have hlast := getLastD_mem_of_ne _ hne
  rw [mem_trueIdxs, List.length_map] at hhead hlast
  refine ⟨hhead.1, ?_, hlast.1, ?_, ?_, ?_⟩
  · rw [← getD_map_of_lt f l _ d false hhead.1]
    exact hhead.2
  · rw [← getD_map_of_lt f l _ d false hlast.1]
    exact hlast.2
  · exact headD_le_of_sorted _ (trueIdxs_pairwise _) _
      (getLastD_mem_of_ne _ hne)
  · intro i hi hfi
    have hmem : i ∈ AutoCrop.trueIdxs (l.map f) := by
      rw [mem_trueIdxs, List.length_map]
      exact ⟨hi, by rw [getD_map_of_lt f l i d false hi]; exact hfi⟩
    exact ⟨headD_le_of_sorted _ (trueIdxs_pairwise _) _ hmem,
      le_getLastD_of_sorted _ (trueIdxs_pairwise _) _ hmem⟩

/-- Extremes of `np.where(cols)[0]` over a column-occupancy vector
`(range n).map f`. -/
theorem trueIdxs_range_facts (f : ℕ → Bool) (n : ℕ)
    (hany : (((List.range n).map f).any id) = true) :
    (AutoCrop.trueIdxs ((List.range n).map f)).headD 0 < n ∧
    f ((AutoCrop.trueIdxs ((List.range n).map f)).headD 0) = true ∧
    (AutoCrop.trueIdxs ((List.range n).map f)).getLastD 0 < n ∧
    f ((AutoCrop.trueIdxs ((List.range n).map f)).getLastD 0) = true ∧
    (AutoCrop.trueIdxs ((List.range n).map f)).headD 0 ≤
      (AutoCrop.trueIdxs ((List.range n).map f)).getLastD 0 ∧
    (∀ j, j < n → f j = true →
      (AutoCrop.trueIdxs ((List.range n).map f)).headD 0 ≤ j ∧
        j ≤ (AutoCrop.trueIdxs ((List.range n).map f)).getLastD 0) := by
  have hne := trueIdxs_ne_nil_of_any _ hany
  have hhead := headD_mem_of_ne _ hne
  have hlast := getLastD_mem_of_ne _ hne
  rw [mem_trueIdxs, List.length_map, List.length_range] at hhead hlast
  refine ⟨hhead.1, ?_, hlast.1, ?_, ?_, ?_⟩
  · rw [← map_range_getD f n _ false hhead.1]
    exact hhead.2
  · rw [← map_range_getD f n _ false hlast.1]
    exact hlast.2
  · exact headD_le_of_sorted _ (trueIdxs_pairwise _) _
      (getLastD_mem_of_ne _ hne)
  · intro j hj hfj
    have hmem : j ∈ AutoCrop.trueIdxs ((List.range n).map f) := by
      rw [mem_trueIdxs, List.length_map, List.length_range]
      exact ⟨hj, by rw [map_range_getD f n j false hj]; exact hfj⟩
    exact ⟨headD_le_of_sorted _ (trueIdxs_pairwise _) _ hmem,
      le_getLastD_of_sorted _ (trueIdxs_pairwise _) _ hmem⟩

/-- A row of the cropped block stays occupied: its occupied column survives the
column slice because every occupied column lies between `col_min` and
`col_max`. -/
theorem slice_row_occ (t : ℕ) (g : List (List RGBA)) (r cmin cmax : ℕ)
    (hr : r < g.length)
    (hocc : AutoCrop.rowOcc t (g.getD r []) = true)
    (hbetween : ∀ j, j < (g.getD r []).length → AutoCrop.colOcc t g j = true →
      cmin ≤ j ∧ j ≤ cmax) :
    AutoCrop.rowOcc t (((g.getD r []).drop cmin).take (cmax - cmin + 1)) = true := by
  rw [rowOcc_iff] at hocc ⊢
  obtain ⟨p, hp, hpa⟩ := hocc
  obtain ⟨j, hj, hjget⟩ := mem_get?_exists _ p hp
  have hcol : AutoCrop.colOcc t g j = true :=
    (colOcc_iff t g j).2 ⟨g.getD r [], getD_mem_of_lt g r [] hr, p, hjget, hpa⟩
  obtain ⟨hj1, hj2⟩ := hbetween j hj hcol
  refine ⟨p, ?_, hpa⟩
  apply get?_mem_of_some _ (j - cmin)
  rw [List.get?_eq_getElem?, List.getElem?_take, if_pos (by omega),
    List.getElem?_drop, show cmin + (j - cmin) = j from by omega,
    ← List.get?_eq_getElem?]
  exact hjget

/-- A column of the cropped block stays occupied: its occupied row survives
the row slice because every occupied row lies between `row_min` and
`row_max`. -/
theorem slice_col_occ (t : ℕ) (g : List (List RGBA)) (rmin rmax cmin cmax c : ℕ)
    (hc1 : cmin ≤ c) (hc2 : c ≤ cmax)
    (hcolocc : AutoCrop.colOcc t g c = true)
    (hbetween : ∀ i, i < g.length → AutoCrop.rowOcc t (g.getD i []) = true →
      rmin ≤ i ∧ i ≤ rmax)
    (hrmax : rmax < g.length) :
    AutoCrop.colOcc t (((g.drop rmin).take (rmax - rmin + 1)).map
      (fun row => (row.drop cmin).take (cmax - cmin + 1))) (c - cmin) = true := by
  rw [colOcc_iff] at hcolocc ⊢
  obtain ⟨row, hrow, p, hget, hpa⟩ := hcolocc
  obtain ⟨i, hi, higet⟩ := mem_get?_exists g row hrow
  have hrowi : g.getD i [] = row := by
    rw [List.getD_eq_getElem?_getD, ← List.get?_eq_getElem?, higet]
    rfl
  have hrocc : AutoCrop.rowOcc t (g.getD i []) = true := by
    rw [hrowi]
    exact (rowOcc_iff t row).2 ⟨p, get?_mem_of_some _ _ _ hget, hpa⟩
  obtain ⟨hi1, hi2⟩ := hbetween i hi hrocc
  refine ⟨((g.getD i []).drop cmin).take (cmax - cmin + 1), ?_, p, ?_, hpa⟩
  · apply List.mem_map_of_mem
    have hidx : ((g.drop rmin).take (rmax - rmin + 1)).getD (i - rmin) [] =
        g.getD i [] := by
      rw [getD_drop_take _ _ _ _ _ (by omega),
        show rmin + (i - rmin) = i from by omega]
    rw [← hidx]
    apply getD_mem_of_lt
    rw [List.length_take, List.length_drop]
    omega
  · rw [hrowi, List.get?_eq_getElem?, List.getElem?_take, if_pos (by omega),
      List.getElem?_drop, show cmin + (c - cmin) = c from by omega,
      ← List.get?_eq_getElem?]
    exact hget

theorem headD_mem_gen {α : Type} (l : List α) (d : α) (h : l ≠ []) :
    l.headD d ∈ l := by
  cases l with
  | nil => exact absurd rfl h
  | cons a t => simp

/-- An image whose data is rectangular, non-degenerate and occupied on its
first and last row and column is returned unchanged by `crop_to_content`. -/
theorem crop_full (o : ImageOutput) (t : ℕ) (h' w' : ℕ)
    (hrect : rectGrid o.data h' w') (hh : 0 < h') (hw : 0 < w')
    (hr0 : AutoCrop.rowOcc t (o.data.getD 0 []) = true)
    (hrl : AutoCrop.rowOcc t (o.data.getD (h' - 1) []) = true)
    (hc0 : AutoCrop.colOcc t o.data 0 = true)
    (hcl : AutoCrop.colOcc t o.data (w' - 1) = true)
    (hwidth : o.width = w') (hheight : o.height = h') :
    AutoCrop.crop_to_content o t = o := by
  have hlen : o.data.length = h' := hrect.1
  have hW0 : (o.data.headD []).length = w' := headD_length_of_rect _ _ _ hrect hh
  have hanyr : ((o.data.map (AutoCrop.rowOcc t)).any id) = true := by
    rw [List.any_eq_true]
    refine ⟨(o.data.map (AutoCrop.rowOcc t)).getD 0 false,
      getD_mem_of_lt _ _ _ (by rw [List.length_map, hlen]; exact hh), ?_⟩
    rw [getD_map_of_lt _ _ _ [] _ (by rw [hlen]; exact hh)]
    exact hr0
  have hanyc : (((List.range ((o.data.headD []).length)).map
      (AutoCrop.colOcc t o.data)).any id) = true := by
    rw [List.any_eq_true]
    refine ⟨((List.range ((o.data.headD []).length)).map
        (AutoCrop.colOcc t o.data)).getD 0 false,
      getD_mem_of_lt _ _ _
        (by rw [List.length_map, List.length_range, hW0]; exact hw), ?_⟩
    rw [map_range_getD _ _ _ _ (by rw [hW0]; exact hw)]
    exact hc0
  obtain ⟨_, _, hr3, _, _, hr6⟩ :=
    trueIdxs_map_facts (AutoCrop.rowOcc t) o.data [] hanyr
  obtain ⟨_, _, hc3, _, _, hc6⟩ :=
    trueIdxs_range_facts (AutoCrop.colOcc t o.data)
      ((o.data.headD []).length) hanyc
  have hrmin0 : (AutoCrop.trueIdxs (o.data.map (AutoCrop.rowOcc t))).headD 0 = 0 :=
    Nat.le_zero.1 (hr6 0 (by omega) hr0).1
  have hrmaxeq : (AutoCrop.trueIdxs (o.data.map (AutoCrop.rowOcc t))).getLastD 0 =
      h' - 1 := by
    have h1 := (hr6 (h' - 1) (by omega) hrl).2
    omega
  have hcmin0 : (AutoCrop.trueIdxs ((List.range ((o.data.headD []).length)).map
      (AutoCrop.colOcc t o.data))).headD 0 = 0 :=
    Nat.le_zero.1 (hc6 0 (by omega) hc0).1
  have hcmaxeq : (AutoCrop.trueIdxs ((List.range ((o.data.headD []).length)).map
      (AutoCrop.colOcc t o.data))).getLastD 0 = w' - 1 := by
    have h1 := (hc6 (w' - 1) (by omega) hcl).2
    omega
  have hcond : (!((o.data.map (AutoCrop.rowOcc t)).any id) ||
      !(((List.range ((o.data.headD []).length)).map
        (AutoCrop.colOcc t o.data)).any id)) = false := by
    rw [hanyr, hanyc]
    rfl
  simp only [AutoCrop.crop_to_content]
  rw [hcond]
  simp only [Bool.false_eq_true, if_false]
  rw [hrmin0, hrmaxeq, hcmin0, hcmaxeq]
  have hdata : ((o.data.drop 0).take (h' - 1 - 0 + 1)).map
      (fun row => (row.drop 0).take (w' - 1 - 0 + 1)) = o.data := by
    rw [show h' - 1 - 0 + 1 = h' from by omega,
      show w' - 1 - 0 + 1 = w' from by omega,
      List.drop_zero, ← hlen, List.take_length]
    have hrows : ∀ row ∈ o.data, (row.drop 0).take w' = row := by
      intro row hrow
      rw [List.drop_zero, ← hrect.2 row hrow, List.take_length]
    conv_rhs => rw [← List.map_id o.data]
    exact List.map_congr_left hrows
  rw [hdata, hW0, hlen]
  cases o with
  | mk d wd ht p =>
      simp only [ImageOutput.mk.injEq]
      exact ⟨trivial, hwidth.symm, hheight.symm, trivial⟩

/-- **C5**: `crop` is idempotent — for every well-formed `CompositeImage` and
every alpha threshold, cropping an already-cropped image with the same
threshold yields the identical result. -/
theorem C5_crop_idempotent (out : ImageOutput) (t : ℕ) (hwf : out.wf) :
    AutoCrop.crop_to_content (AutoCrop.crop_to_content out t) t =
      AutoCrop.crop_to_content out t := by
  obtain ⟨hrect, _⟩ := hwf
  by_cases hc : (!((out.data.map (AutoCrop.rowOcc t)).any id) ||
      !(((List.range ((out.data.headD []).length)).map
        (AutoCrop.colOcc t out.data)).any id)) = true
  · have h1 : AutoCrop.crop_to_content out t = out := by
      simp only [AutoCrop.crop_to_content]
      rw [if_pos hc]
    rw [h1]
    exact h1
  · have hanyr : ((out.data.map (AutoCrop.rowOcc t)).any id) = true := by
      cases hb : ((out.data.map (AutoCrop.rowOcc t)).any id) with
      | false => exact absurd (by simp [hb]) hc
      | true => rfl
    have hanyc : (((List.range ((out.data.headD []).length)).map
        (AutoCrop.colOcc t out.data)).any id) = true := by
      cases hb : (((List.range ((out.data.headD []).length)).map
          (AutoCrop.colOcc t out.data)).any id) with
      | false => exact absurd (by rw [hanyr, hb]; decide) hc
      | true => rfl
    obtain ⟨hr1, hr2, hr3, hr4, hr5, hr6⟩ :=
      trueIdxs_map_facts (AutoCrop.rowOcc t) out.data [] hanyr
    obtain ⟨hc1, hc2, hc3, hc4, hc5, hc6⟩ :=
      trueIdxs_range_facts (AutoCrop.colOcc t out.data)
        ((out.data.headD []).length) hanyc
    set rmin := (AutoCrop.trueIdxs (out.data.map (AutoCrop.rowOcc t))).headD 0
      with hrmin_def
    set rmax := (AutoCrop.trueIdxs (out.data.map (AutoCrop.rowOcc t))).getLastD 0
      with hrmax_def
    set cmin := (AutoCrop.trueIdxs ((List.range ((out.data.headD []).length)).map
      (AutoCrop.colOcc t out.data))).headD 0 with hcmin_def
    set cmax := (AutoCrop.trueIdxs ((List.range ((out.data.headD []).length)).map
      (AutoCrop.colOcc t out.data))).getLastD 0 with hcmax_def
    set cropped := ((out.data.drop rmin).take (rmax - rmin + 1)).map
      (fun row => (row.drop cmin).take (cmax - cmin + 1)) with hcropped_def
    have hW0 : (out.data.headD []).length = out.width :=
      headD_length_of_rect out.data out.height out.width hrect
        (by have := hrect.1; omega)
    have hrowlen : ∀ i, i < out.data.length → (out.data.getD i []).length = out.width :=
      fun i hi => hrect.2 _ (getD_mem_of_lt _ _ _ hi)
    have hcW : cmax < out.width := by rw [← hW0]; exact hc3
    have hrectC : rectGrid cropped (rmax - rmin + 1) (cmax - cmin + 1) := by
      constructor
      · rw [hcropped_def, List.length_map, List.length_take, List.length_drop]
        omega
      · intro row hrow
        rw [hcropped_def, List.mem_map] at hrow
        obtain ⟨orig, horig, he⟩ := hrow
        have horig2 : orig ∈ out.data :=
          List.mem_of_mem_drop (List.mem_of_mem_take horig)
        have hwlen : orig.length = out.width := hrect.2 orig horig2
        rw [← he, List.length_take, List.length_drop, hwlen]
        omega
    have hbetween_c : ∀ j, j < (out.data.getD rmin []).length →
        AutoCrop.colOcc t out.data j = true → cmin ≤ j ∧ j ≤ cmax := by
      intro j hj hcol
      exact hc6 j (by rw [hW0]; rw [hrowlen rmin hr1] at hj; exact hj) hcol
    have hbetween_c' : ∀ j, j < (out.data.getD rmax []).length →
        AutoCrop.colOcc t out.data j = true → cmin ≤ j ∧ j ≤ cmax := by
      intro j hj hcol
      exact hc6 j (by rw [hW0]; rw [hrowlen rmax hr3] at hj; exact hj) hcol
    have hocc0 : AutoCrop.rowOcc t (cropped.getD 0 []) = true := by
      have h0 : cropped.getD 0 [] =
          ((out.data.getD rmin []).drop cmin).take (cmax - cmin + 1) := by
        rw [hcropped_def,
          getD_map_of_lt _ _ _ [] _
            (by rw [List.length_take, List.length_drop]; omega),
          getD_drop_take _ _ _ _ _ (by omega)]
        rfl
      rw [h0]
      exact slice_row_occ t out.data rmin cmin cmax hr1 hr2 hbetween_c
    have hoccl : AutoCrop.rowOcc t (cropped.getD (rmax - rmin + 1 - 1) []) = true := by
      have h0 : cropped.getD (rmax - rmin + 1 - 1) [] =
          ((out.data.getD rmax []).drop cmin).take (cmax - cmin + 1) := by
        rw [hcropped_def,
          getD_map_of_lt _ _ _ [] _
            (by rw [List.length_take, List.length_drop]; omega),
          getD_drop_take _ _ _ _ _ (by omega),
          show rmin + (rmax - rmin + 1 - 1) = rmax from by omega]
      rw [h0]
      exact slice_row_occ t out.data rmax cmin cmax hr3 hr4 hbetween_c'
    have hcol0 : AutoCrop.colOcc t cropped 0 = true := by
      have h0 := slice_col_occ t out.data rmin rmax cmin cmax cmin le_rfl hc5
        hc2 hr6 hr3
      rw [Nat.sub_self] at h0
      exact h0
    have hcoll : AutoCrop.colOcc t cropped (cmax - cmin + 1 - 1) = true := by
      have h0 := slice_col_occ t out.data rmin rmax cmin cmax cmax hc5 le_rfl
        hc4 hr6 hr3
      rw [show cmax - cmin + 1 - 1 = cmax - cmin from by omega]
      exact h0
    have hcrop : AutoCrop.crop_to_content out t =
        ImageOutput.mk cropped ((cropped.headD []).length) cropped.length
          out.original_path := by
      simp only [AutoCrop.crop_to_content]
      rw [if_neg hc]
    have hne : cropped ≠ [] := by
      have := hrectC.1
      intro hnil
      rw [hnil] at this
      simp at this
    have hwidtheq : (cropped.headD []).length = cmax - cmin + 1 :=
      hrectC.2 _ (headD_mem_gen _ _ hne)
    rw [hcrop]
    exact crop_full _ t (rmax - rmin + 1) (cmax - cmin + 1) hrectC
      (by omega) (by omega) hocc0 hoccl hcol0 hcoll hwidtheq hrectC.1

/-- **C5** witness: the theorem applied at a concrete 2×2 image with one
opaque pixel and threshold 10. -/
theorem C5_crop_idempotent_witness :
    (ImageOutput.mk [[RGBA.mk 1 1 1 0, RGBA.mk 2 2 2 200],
      [RGBA.mk 3 3 3 0, RGBA.mk 4 4 4 0]] 2 2 "p").wf ∧
    AutoCrop.crop_to_content (AutoCrop.crop_to_content
      (ImageOutput.mk [[RGBA.mk 1 1 1 0, RGBA.mk 2 2 2 200],
        [RGBA.mk 3 3 3 0, RGBA.mk 4 4 4 0]] 2 2 "p") 10) 10 =
      AutoCrop.crop_to_content
        (ImageOutput.mk [[RGBA.mk 1 1 1 0, RGBA.mk 2 2 2 200],
          [RGBA.mk 3 3 3 0, RGBA.mk 4 4 4 0]] 2 2 "p") 10 :=
  ⟨by decide, C5_crop_idempotent _ 10 (by decide)⟩

/-- **C10**: `bounds` and `crop` agree — for every well-formed
`CompositeImage` and threshold, if `get_crop_bounds` returns `(x, y, w, h)`
then `crop_to_content` returns an image of width `w` and height `h` whose
pixel data is exactly the sub-rectangle of the input spanning rows `y` to
`y + h - 1` and columns `x` to `x + w - 1` (the whole image in the
fully-transparent case). -/
theorem C10_bounds_crop_agree (out : ImageOutput) (t : ℕ) (hwf : out.wf) :
    (AutoCrop.crop_to_content out t).width = (AutoCrop.get_crop_bounds out t).2.2.1 ∧
    (AutoCrop.crop_to_content out t).height = (AutoCrop.get_crop_bounds out t).2.2.2 ∧
    (AutoCrop.crop_to_content out t).data =
      ((out.data.drop (AutoCrop.get_crop_bounds out t).2.1).take
        (AutoCrop.get_crop_bounds out t).2.2.2).map
        (fun row => (row.drop (AutoCrop.get_crop_bounds out t).1).take
          (AutoCrop.get_crop_bounds out t).2.2.1) := by
  obtain ⟨hrect, _⟩ := hwf
  by_cases hc : (!((out.data.map (AutoCrop.rowOcc t)).any id) ||
      !(((List.range ((out.data.headD []).length)).map
        (AutoCrop.colOcc t out.data)).any id)) = true
  · have hcropeq : AutoCrop.crop_to_content out t = out := by
      simp only [AutoCrop.crop_to_content]
      rw [if_pos hc]
    have hbnd : AutoCrop.get_crop_bounds out t = (0, 0, out.width, out.height) := by
      simp only [AutoCrop.get_crop_bounds]
      rw [if_pos hc]
    rw [hcropeq, hbnd]
    refine ⟨rfl, rfl, ?_⟩
    simp only [List.drop_zero]
    rw [← hrect.1, List.take_length]
    have hrows : ∀ row ∈ out.data, row.take out.width = row := by
      intro row hrow
      rw [← hrect.2 row hrow, List.take_length]
    symm
    conv_rhs => rw [← List.map_id out.data]
    exact List.map_congr_left hrows
  · have hanyr : ((out.data.map (AutoCrop.rowOcc t)).any id) = true := by
      cases hb : ((out.data.map (AutoCrop.rowOcc t)).any id) with
      | false => exact absurd (by simp [hb]) hc
      | true => rfl
    have hanyc : (((List.range ((out.data.headD []).length)).map
        (AutoCrop.colOcc t out.data)).any id) = true := by
      cases hb : (((List.range ((out.data.headD []).length)).map
          (AutoCrop.colOcc t out.data)).any id) with
      | false => exact absurd (by rw [hanyr, hb]; decide) hc
      | true => rfl
    obtain ⟨hr1, _, hr3, _, hr5, _⟩ :=
      trueIdxs_map_facts (AutoCrop.rowOcc t) out.data [] hanyr
    obtain ⟨hc1, _, hc3, _, hc5, _⟩ :=
      trueIdxs_range_facts (AutoCrop.colOcc t out.data)
        ((out.data.headD []).length) hanyc
    set rmin := (AutoCrop.trueIdxs (out.data.map (AutoCrop.rowOcc t))).headD 0
      with hrmin_def
    set rmax := (AutoCrop.trueIdxs (out.data.map (AutoCrop.rowOcc t))).getLastD 0
      with hrmax_def
    set cmin := (AutoCrop.trueIdxs ((List.range ((out.data.headD []).length)).map
      (AutoCrop.colOcc t out.data))).headD 0 with hcmin_def
    set cmax := (AutoCrop.trueIdxs ((List.range ((out.data.headD []).length)).map
      (AutoCrop.colOcc t out.data))).getLastD 0 with hcmax_def
    set cropped := ((out.data.drop rmin).take (rmax - rmin + 1)).map
      (fun row => (row.drop cmin).take (cmax - cmin + 1)) with hcropped_def
    have hW0 : (out.data.headD []).length = out.width :=
      headD_length_of_rect out.data out.height out.width hrect
        (by have := hrect.1; omega)
    have hrectC : rectGrid cropped (rmax - rmin + 1) (cmax - cmin + 1) := by
      constructor
      · rw [hcropped_def, List.length_map, List.length_take, List.length_drop]
        omega
      · intro row hrow
        rw [hcropped_def, List.mem_map] at hrow
        obtain ⟨orig, horig, he⟩ := hrow
        have horig2 : orig ∈ out.data :=
          List.mem_of_mem_drop (List.mem_of_mem_take horig)
        have hwlen : orig.length = out.width := hrect.2 orig horig2
        have hcW : cmax < out.width := by rw [← hW0]; exact hc3
        rw [← he, List.length_take, List.length_drop, hwlen]
        omega
    have hne : cropped ≠ [] := by
      have := hrectC.1
      intro hnil
      rw [hnil] at this
      simp at this
    have hcrop : AutoCrop.crop_to_content out t =
        ImageOutput.mk cropped ((cropped.headD []).length) cropped.length
          out.original_path := by
      simp only [AutoCrop.crop_to_content]
      rw [if_neg hc]
    have hbnd : AutoCrop.get_crop_bounds out t =
        (cmin, rmin, cmax - cmin + 1, rmax - rmin + 1) := by
      simp only [AutoCrop.get_crop_bounds]
      rw [if_neg hc]
    rw [hcrop, hbnd]
    exact ⟨hrectC.2 _ (headD_mem_gen _ _ hne), hrectC.1, rfl⟩

/-- **C10** witness: the theorem applied at a concrete 2×2 image with one
opaque pixel and threshold 10. -/
theorem C10_bounds_crop_agree_witness :
    (ImageOutput.mk [[RGBA.mk 1 1 1 0, RGBA.mk 2 2 2 200],
      [RGBA.mk 3 3 3 0, RGBA.mk 4 4 4 0]] 2 2 "p").wf ∧
    ((AutoCrop.crop_to_content (ImageOutput.mk [[RGBA.mk 1 1 1 0, RGBA.mk 2 2 2 200],
        [RGBA.mk 3 3 3 0, RGBA.mk 4 4 4 0]] 2 2 "p") 10).width =
      (AutoCrop.get_crop_bounds (ImageOutput.mk [[RGBA.mk 1 1 1 0, RGBA.mk 2 2 2 200],
        [RGBA.mk 3 3 3 0, RGBA.mk 4 4 4 0]] 2 2 "p") 10).2.2.1 ∧
    (AutoCrop.crop_to_content (ImageOutput.mk [[RGBA.mk 1 1 1 0, RGBA.mk 2 2 2 200],
        [RGBA.mk 3 3 3 0, RGBA.mk 4 4 4 0]] 2 2 "p") 10).height =
      (AutoCrop.get_crop_bounds (ImageOutput.mk [[RGBA.mk 1 1 1 0, RGBA.mk 2 2 2 200],
        [RGBA.mk 3 3 3 0, RGBA.mk 4 4 4 0]] 2 2 "p") 10).2.2.2 ∧
    (AutoCrop.crop_to_content (ImageOutput.mk [[RGBA.mk 1 1 1 0, RGBA.mk 2 2 2 200],
        [RGBA.mk 3 3 3 0, RGBA.mk 4 4 4 0]] 2 2 "p") 10).data =
      (((ImageOutput.mk [[RGBA.mk 1 1 1 0, RGBA.mk 2 2 2 200],
        [RGBA.mk 3 3 3 0, RGBA.mk 4 4 4 0]] 2 2 "p").data.drop
          (AutoCrop.get_crop_bounds (ImageOutput.mk [[RGBA.mk 1 1 1 0, RGBA.mk 2 2 2 200],
            [RGBA.mk 3 3 3 0, RGBA.mk 4 4 4 0]] 2 2 "p") 10).2.1).take
        (AutoCrop.get_crop_bounds (ImageOutput.mk [[RGBA.mk 1 1 1 0, RGBA.mk 2 2 2 200],
          [RGBA.mk 3 3 3 0, RGBA.mk 4 4 4 0]] 2 2 "p") 10).2.2.2).map
        (fun row => (row.drop
          (AutoCrop.get_crop_bounds (ImageOutput.mk [[RGBA.mk 1 1 1 0, RGBA.mk 2 2 2 200],
            [RGBA.mk 3 3 3 0, RGBA.mk 4 4 4 0]] 2 2 "p") 10).1).take
          (AutoCrop.get_crop_bounds (ImageOutput.mk [[RGBA.mk 1 1 1 0, RGBA.mk 2 2 2 200],
            [RGBA.mk 3 3 3 0, RGBA.mk 4 4 4 0]] 2 2 "p") 10).2.2.1)) :=
  ⟨by decide, C10_bounds_crop_agree _ 10 (by decide)⟩
